import Mathlib

/-!
# gpii-chrome-extension: the DOM watcher and the page simplifier

A shallow embedding of `src/extension/src/content_scripts/mutationObserver.js`
and `src/extension/src/content_scripts/simplification.js`, and the properties
of the two components that the specification states.

## Conventions of the embedding

* The page is a store of nodes addressed by identifier. A jQuery collection
  is the list of the identifiers of its elements. A node records what the
  component reads or writes: its child list, whether it lies under the
  container, its inline `visibility`, whether jQuery has hidden it, its
  `aria-pressed` attribute and the click handlers bound to it.
* The component (`that`) is a record; each function of the source takes the
  component and gives the component it leaves behind, either on returning
  (`Except.ok`) or on raising a `TypeError` (`Except.error`): a method called
  on the `undefined` that `that.locate` gives for a name without entry in
  the selector table raises, and what was done before stays done. The events
  fired on the component are appended to a log.
* The browser is a parameter `m` of every function that queries it:
  `m.elementMatches sel a` tells whether an element with the authored
  attributes `a` satisfies the selector string `sel` (`Element.matches`,
  jQuery `find`), and `m.stringPath` reads properties of a JavaScript string.
  Selector strings are taken to parse, and to inspect the authored attributes
  only (not the inline style or `aria-pressed`, which the component
  rewrites).
* The libraries are modelled by what they do: jQuery `css`, `show`, `hide`,
  `attr`, `addClass`, `prepend`; the `locate` of the Infusion DOM binder
  (`undefined` for a name that is no key of the selector table, the empty
  collection for a null selector, the container for the empty selector,
  otherwise the matching elements under the container); `fluid.get`, which
  reads its second argument as a dotted path; the registration list of a
  native `MutationObserver` (`observe` replaces the options of a target that
  is registered and adds any other, `disconnect` empties the list).
* `that.content` and `that.nav` are located once, at start-up, by the
  `gpii.chrome.contentView` grade; here they are given lists of identifiers.
-/

namespace Gpii

/-! ## The page -/

/-- What a selector can inspect on an element: its tag name, its classes, and
its other authored attributes, each with its whitespace separated words (`id`,
`role`, `type`, and so on). -/
structure Attrs where
  tag : String
  classes : List String
  attributes : List (String × List String)
deriving DecidableEq, Repr

/-- One DOM node. `children` lists the identifiers of the child nodes in
order; `underContainer` says that the node is a proper descendant of the
container of the component; `visibility` is the inline `style.visibility`
(the empty string when unset); `displayNone` is the state that jQuery `hide`
sets and `show` clears; `ariaPressed` is the `aria-pressed` attribute when
present; `clickHandlers` counts the click handlers bound to the node. -/
structure Node where
  id : Nat
  isElement : Bool
  attrs : Attrs
  text : String
  children : List Nat
  underContainer : Bool
  visibility : String
  displayNone : Bool
  ariaPressed : Option Bool
  clickHandlers : Nat
deriving DecidableEq, Repr

/-- The page: every node the component can reach, the nodes under the
container in document order. -/
abbrev Dom := List Node

/-- The browser, as far as the components question it.

`elementMatches sel a` is the selector engine (`Element.matches`): whether an
element with the attributes `a` satisfies the selector string `sel`. On a string that is not a
selector (the empty string that `join` gives for an empty array) the browser
raises instead of answering; an engine that answers `false` there describes
the same events and the same page.

`stringPath s segs` is what `s[seg1][seg2]...` evaluates to for a JavaScript
string `s` and a non-empty list of property names, written as `Array.join`
writes it, when that value is truthy (`length`, an index, a method); `none`
when it is `undefined` or falsy. -/
structure Engine where
  elementMatches : String → Attrs → Bool
  stringPath : String → List String → Option String

/-- The record of one DOM mutation, as the platform delivers it; nodes are
referred to by identifier. -/
structure MutationRecord where
  type : String
  target : Nat
  addedNodes : List Nat
  removedNodes : List Nat
deriving DecidableEq, Repr

/-! ## `gpii.chrome.mutationObserver` -/

namespace chrome.mutationObserver

/-- The three events of the `gpii.chrome.mutationObserver` grade, with the
arguments they are fired with. -/
inductive Event where
  | onNodeAdded (node : Nat) (mutationRecord : MutationRecord)
  | onNodeRemoved (node : Nat) (mutationRecord : MutationRecord)
  | onAttributeChanged (target : Nat) (mutationRecord : MutationRecord)
deriving DecidableEq, Repr

/-- The body of the outer `forEach` of the callback built by
`gpii.chrome.mutationObserver.createObserver`: what one mutation record adds
to the events fired so far. -/
def relayRecord (fired : List Event) (mutationRecord : MutationRecord) : List Event :=
  let fired1 := mutationRecord.addedNodes.foldl
    (fun acc node => acc ++ [Event.onNodeAdded node mutationRecord]) fired
  let fired2 := mutationRecord.removedNodes.foldl
    (fun acc node => acc ++ [Event.onNodeRemoved node mutationRecord]) fired1
  if mutationRecord.type = "attributes" then
    fired2 ++ [Event.onAttributeChanged mutationRecord.target mutationRecord]
  else
    fired2

/-- The callback that `gpii.chrome.mutationObserver.createObserver` hands to
`new MutationObserver`: the events fired, in order, for one batch of
mutation records. -/
def createObserver (mutationRecords : List MutationRecord) : List Event :=
  mutationRecords.foldl relayRecord []

/-- The events one record stands for, as the specification lists them: one
`onNodeAdded` per added node, then one `onNodeRemoved` per removed node, then
one `onAttributeChanged` when the type of the record is `attributes`. -/
def eventsOfRecord (r : MutationRecord) : List Event :=
  r.addedNodes.map (fun node => Event.onNodeAdded node r)
    ++ r.removedNodes.map (fun node => Event.onNodeRemoved node r)
    ++ (if r.type = "attributes" then [Event.onAttributeChanged r.target r] else [])

end chrome.mutationObserver

/-! ## `gpii.simplify` -/

namespace simplify

/-- The selector table `that.options.selectors` of the merged options. The
four keys of the defaults of the grade are always there; an override replaces
the selector of a key or nulls it (`none`). `others` holds the keys that an
integrator adds, each with a selector or null. The properties that every
JavaScript object inherits (`constructor`, `toString` and the like) are not
names of selectors and are left out. -/
structure Selectors where
  navToggle : Option String
  nav : Option String
  search : Option String
  visible : Option String
  others : List (String × Option String)
deriving DecidableEq, Repr

/-- The property read `selectors[key]` on the selector table: `none` is
`undefined` (no such key), `some none` is null, `some (some s)` is the
selector string `s`. -/
def Selectors.get (s : Selectors) (key : String) : Option (Option String) :=
  if key = "navToggle" then some s.navToggle
  else if key = "nav" then some s.nav
  else if key = "search" then some s.search
  else if key = "visible" then some s.visible
  else s.others.lookup key

/-- The options of `gpii.simplify` that the functions read: the selector
table, the ordered names of the always visible selectors, the markup, label
and class of the navigation toggle, and the injection switch. The markup is
kept parsed, as the attributes of the one element it describes. -/
structure Options where
  selectors : Selectors
  alwaysVisible : List String
  markupNavToggle : Attrs
  stringsNavToggle : String
  stylesNavToggle : String
  injectNavToggle : Bool
deriving DecidableEq, Repr

/-- The model of `gpii.simplify`. -/
structure Model where
  simplify : Bool
  showNav : Bool
deriving DecidableEq, Repr

/-- The fields of `MutationObserverInit` that the component passes; a field
left out of the object literal is `false`. -/
structure ObserveConfig where
  attributes : Bool
  childList : Bool
  subtree : Bool
deriving DecidableEq, Repr

/-- A native `MutationObserver` built by `gpii.simplify.set`: `serial` tells
the observers constructed by one component apart, `selectors` is the array
captured by the callback, `registered` lists the observed targets with the
configuration each was registered with (empty when disconnected). -/
structure Observer where
  serial : Nat
  selectors : List String
  registered : List (Nat × ObserveConfig)
deriving DecidableEq, Repr

/-- The component `that`. `container` is `that.container[0]`; `content` and
`nav` are the collections located at start-up by the `gpii.chrome.contentView`
grade; `observer` is absent until `set` constructs it; `observersBuilt` counts
the calls of `new MutationObserver`; `fired` lists the nodes
`onAlwaysVisibleNodeAdded` was fired for, in order; `dom` is the page. -/
structure Component where
  options : Options
  model : Model
  container : Nat
  content : List Nat
  nav : List Nat
  observer : Option Observer
  observersBuilt : Nat
  fired : List Nat
  dom : Dom
deriving DecidableEq, Repr

deriving instance DecidableEq for Except

/-- What a call of a function of the component ends in: `Except.ok that` when
it returns, `Except.error that` when it raises a `TypeError`; either way
`that` is the component as the call leaves it. -/
abbrev Outcome := Except Component Component

/-- The component as a call leaves it, whether it returned or raised. -/
def Outcome.that : Outcome → Component
  | .ok t => t
  | .error t => t

/-- Whether a call raised. -/
def Outcome.raised : Outcome → Bool
  | .ok _ => false
  | .error _ => true

/-- The defaults of `fluid.defaults("gpii.simplify", ...)`. -/
def defaults : Options :=
  { selectors :=
      { navToggle := some ".gpiic-simplify-navToggle"
        nav := some "nav, [role~=\x27navigation\x27], .navigation, .nav, #nav, #navigation"
        search := some "[role~=\x27search\x27], [type~=\x27search\x27]"
        visible := some ".gpiic-simplify-visible"
        others := [] }
    alwaysVisible := ["search", "visible"]
    markupNavToggle := { tag := "button", classes := ["gpiic-simplify-navToggle"], attributes := [] }
    stringsNavToggle := "Show/Hide Navigation"
    stylesNavToggle := "gpii-simplify-navToggle"
    injectNavToggle := true }

/-! ### jQuery, the DOM binder and `fluid.get` -/

/-- jQuery `collection.css("visibility", value)`. -/
def css (collection : List Nat) (value : String) (dom : Dom) : Dom :=
  dom.map (fun n => if n.id ∈ collection then { n with visibility := value } else n)

/-- jQuery `collection.show()`. -/
def jqShow (collection : List Nat) (dom : Dom) : Dom :=
  dom.map (fun n => if n.id ∈ collection then { n with displayNone := false } else n)

/-- jQuery `collection.hide()`. -/
def jqHide (collection : List Nat) (dom : Dom) : Dom :=
  dom.map (fun n => if n.id ∈ collection then { n with displayNone := true } else n)

/-- jQuery `collection.attr("aria-pressed", value)`. -/
def attrAriaPressed (collection : List Nat) (value : Bool) (dom : Dom) : Dom :=
  dom.map (fun n => if n.id ∈ collection then { n with ariaPressed := some value } else n)

/-- jQuery `addClass`. -/
def addClass (a : Attrs) (className : String) : Attrs :=
  if className ∈ a.classes then a else { a with classes := a.classes ++ [className] }

/-- The collection a DOM binder makes of a selector that its table holds:
empty for the null selector, the container itself for the empty selector, and
otherwise the elements under the container that satisfy the selector, in
document order. -/
def collectionOf (m : Engine) (container : Nat) (dom : Dom) : Option String → List Nat
  | none => []
  | some selector =>
    if selector = "" then [container]
    else
      (dom.filter (fun n =>
        n.underContainer && n.id != container && n.isElement && m.elementMatches selector n.attrs)).map
        (fun n => n.id)

/-- The `locate` of a DOM binder created for a container and a selector
table: `undefined` (`none`) for a name that is no key of the table, and the
collection of the selector otherwise. -/
def locateIn (m : Engine) (selectors : Selectors) (container : Nat) (dom : Dom)
    (name : String) : Option (List Nat) :=
  (selectors.get name).map (collectionOf m container dom)

/-- The DOM binder of the component: `that.locate(name)`. -/
def locate (m : Engine) (that : Component) (name : String) : Option (List Nat) :=
  locateIn m that.options.selectors that.container that.dom name

/-- JavaScript `String.prototype.split(".")` on the characters of a string. -/
def splitDots : List Char → List (List Char)
  | [] => [[]]
  | c :: cs =>
    if c = '.' then [] :: splitDots cs
    else
      match splitDots cs with
      | seg :: rest => (c :: seg) :: rest
      | [] => [[c]]

/-- Infusion `fluid.model.parseEL`: the segments of a path, none for the empty
path. -/
def parseEL (el : String) : List String :=
  if el = "" then [] else (splitDots el.data).map String.mk

/-- Infusion `fluid.get(that.options.selectors, selectorName)` as the test
`if (selector)` and `join` see it: the value found is given when it is truthy,
written as `join` writes it. The name is read as a path: the empty path gives
the table itself, the first segment is read on the table, and further
segments are read on the string found there. -/
def fluidGet (m : Engine) (selectors : Selectors) (el : String) : Option String :=
  match parseEL el with
  | [] => some "[object Object]"
  | key :: rest =>
    match selectors.get key with
    | some (some s) =>
      if s = "" then none
      else if rest.isEmpty then some s
      else m.stringPath s rest
    | _ => none

/-- An identifier that no node of the page and no reference held by the
component uses: the identity of an element that is about to be created. -/
def freshId (that : Component) : Nat :=
  (that.container :: (that.content ++ that.nav ++ that.dom.map (fun n => n.id))).foldr max 0 + 1

/-- The element `gpii.simplify.injectToggle` builds before inserting it:
`$(markup)` with `aria-pressed`, text, class and click handler set. -/
def newToggle (that : Component) : Node :=
  { id := freshId that
    isElement := true
    attrs := addClass that.options.markupNavToggle that.options.stylesNavToggle
    text := that.options.stringsNavToggle
    children := []
    underContainer := false
    visibility := ""
    displayNone := false
    ariaPressed := some that.model.showNav
    clickHandlers := 1 }

/-- jQuery `$(parent).prepend(child)` for a single parent: the child becomes
the first child of the parent and follows it in document order; it is under
the container when the parent is the container or is under it. -/
def prepend (container parent : Nat) (child : Node) : Dom → Dom
  | [] => []
  | n :: ns =>
    if n.id = parent then
      { n with children := child.id :: n.children }
        :: { child with underContainer := n.underContainer || n.id == container } :: ns
    else
      n :: prepend container parent child ns

/-! ### The functions of `simplification.js` -/

/-- `gpii.simplify.injectToggle`. Reading `navToggle.length` raises when
`that.locate` gave `undefined`. -/
def injectToggle (m : Engine) (that : Component) (content : List Nat) : Outcome :=
  match locate m that "navToggle" with
  | none => .error that
  | some navToggle =>
    if navToggle.isEmpty && !that.nav.isEmpty then
      match content.head? with
      | some first =>
        .ok { that with dom := prepend that.container first (newToggle that) that.dom }
      | none => .ok that
    else
      .ok that

/-- `gpii.simplify.setVisible`. -/
def setVisible (elm : Nat) (dom : Dom) : Dom :=
  css [elm] "visible" dom

/-- The loop at the top of `gpii.simplify.set` that fills `selectors`: for
each configured name, in order, what `fluid.get` finds in the selector table
is pushed when it is truthy. -/
def collectSelectors (m : Engine) (o : Options) : List String :=
  o.alwaysVisible.foldl (fun selectors selectorName =>
    match fluidGet m o.selectors selectorName with
    | some selector => selectors ++ [selector]
    | none => selectors) []

/-- `node.matches && node.matches(selector)`. -/
def nodeMatches (m : Engine) (dom : Dom) (selector : String) (node : Nat) : Bool :=
  match dom.find? (fun n => n.id == node) with
  | some n => n.isElement && m.elementMatches selector n.attrs
  | none => false

/-- Firing `onAlwaysVisibleNodeAdded` with a node: the event is logged and the
listener `gpii.simplify.setVisible` runs. -/
def fireAlwaysVisibleNodeAdded (that : Component) (node : Nat) : Component :=
  { that with fired := that.fired ++ [node], dom := setVisible node that.dom }

/-- The callback that `gpii.simplify.set` hands to `new MutationObserver`,
with the `selectors` array it captured. -/
def observerCallback (m : Engine) (selectors : List String) (that : Component)
    (mutationRecords : List MutationRecord) : Component :=
  let selector := ",".intercalate selectors
  mutationRecords.foldl (fun t mutationRecord =>
    mutationRecord.addedNodes.foldl (fun t1 node =>
      if nodeMatches m t1.dom selector node then fireAlwaysVisibleNodeAdded t1 node else t1) t)
    that

/-- The platform delivering a batch of mutation records to `that.observer`. -/
def deliver (m : Engine) (that : Component) (mutationRecords : List MutationRecord) : Component :=
  match that.observer with
  | some o => observerCallback m o.selectors that mutationRecords
  | none => that

/-- `MutationObserver.observe(target, options)`: a target that is already
registered has its options replaced, another target is added. -/
def Observer.observe (o : Observer) (target : Nat) (config : ObserveConfig) : Observer :=
  if o.registered.any (fun r => r.1 == target) then
    { o with registered := o.registered.map (fun r => if r.1 = target then (target, config) else r) }
  else
    { o with registered := o.registered ++ [(target, config)] }

/-- `MutationObserver.disconnect()`. -/
def Observer.disconnect (o : Observer) : Observer :=
  { o with registered := [] }

/-- The first statement of `gpii.simplify.set`: the observer is constructed
when `that.observer` is not set yet. -/
def ensureObserver (m : Engine) (that : Component) : Component :=
  match that.observer with
  | some _ => that
  | none =>
    { that with
      observer := some
        { serial := that.observersBuilt, selectors := collectSelectors m that.options
          registered := [] }
      observersBuilt := that.observersBuilt + 1 }

/-- The loop `fluid.each(that.options.alwaysVisible, ...)` of
`gpii.simplify.set` over the names still to come: the visibility of what each
name locates is set; calling `css` on the `undefined` that `that.locate` gives
for a name without entry raises, and the loop ends there. -/
def eachAlwaysVisible (m : Engine) (value : String) : List String → Component → Outcome
  | [], that => .ok that
  | selector :: rest, that =>
    match locate m that selector with
    | none => .error that
    | some collection =>
      eachAlwaysVisible m value rest { that with dom := css collection value that.dom }

/-- `gpii.simplify.set`. -/
def set (m : Engine) (that0 : Component) (state : Bool) : Outcome :=
  let that := ensureObserver m that0
  if state && !that.content.isEmpty then
    let t1 := { that with dom := css that.content "visible" that.dom }
    match eachAlwaysVisible m "visible" t1.options.alwaysVisible t1 with
    | .error t => .error t
    | .ok t2 =>
      let t3 := { t2 with dom := css [t2.container] "hidden" t2.dom }
      match (if t3.options.injectNavToggle then injectToggle m t3 t3.content else .ok t3) with
      | .error t => .error t
      | .ok t4 =>
        match locate m t4 "navToggle" with
        | none => .error t4
        | some navToggle =>
          let t5 := { t4 with dom := jqShow navToggle t4.dom }
          .ok { t5 with
            observer := t5.observer.map (fun o =>
              o.observe t5.container { childList := true, subtree := true, attributes := false }) }
  else if !that.content.isEmpty then
    match locate m that "navToggle" with
    | none => .error that
    | some navToggle =>
      let t1 := { that with dom := jqHide navToggle that.dom }
      let t2 := { t1 with dom := css [t1.container] "" t1.dom }
      let t3 := { t2 with dom := css t2.content "" t2.dom }
      match eachAlwaysVisible m "" t3.options.alwaysVisible t3 with
      | .error t => .error t
      | .ok t4 => .ok { t4 with observer := t4.observer.map (fun o => o.disconnect) }
  else
    .ok that

/-- `gpii.simplify.disconnectObserver`. -/
def disconnectObserver (that : Component) : Component :=
  match that.observer with
  | some o => { that with observer := some o.disconnect }
  | none => that

/-- `gpii.simplify.toggleNav`. Calling `attr` raises when `that.locate` gave
`undefined`, after the visibility of the navigation has been written. -/
def toggleNav (m : Engine) (that : Component) (state : Bool) : Outcome :=
  let navToggle := locate m that "navToggle"
  if state && that.model.simplify then
    let t1 := { that with dom := css that.nav "visible" that.dom }
    match navToggle with
    | none => .error t1
    | some collection => .ok { t1 with dom := attrAriaPressed collection state t1.dom }
  else
    let t1 := { that with dom := css that.nav "" that.dom }
    match navToggle with
    | none => .error t1
    | some collection => .ok { t1 with dom := attrAriaPressed collection state t1.dom }

/-- The model listener of `simplify`: a change of the flag is written to the
model and `that.set` runs with the new value. -/
def changeSimplify (m : Engine) (that : Component) (value : Bool) : Outcome :=
  if that.model.simplify = value then .ok that
  else set m { that with model := { that.model with simplify := value } } value

/-- The model listener of `showNav`: a change of the flag is written to the
model and `that.toggleNav` runs with the new value. -/
def changeShowNav (m : Engine) (that : Component) (value : Bool) : Outcome :=
  if that.model.showNav = value then .ok that
  else toggleNav m { that with model := { that.model with showNav := value } } value

/-- The click handler that `injectToggle` binds to the toggle. -/
def clickNavToggle (m : Engine) (that : Component) : Outcome :=
  changeShowNav m that (!that.model.showNav)

/-- The flag `showNav` is changed to true and then the flag `simplify` is
changed to true: each listener runs with the model already updated, the
second on the component as the first leaves it. -/
def showNavThenSimplify (m : Engine) (that : Component) : Component :=
  let t1 := (toggleNav m { that with model := { that.model with showNav := true } } true).that
  (set m { t1 with model := { t1.model with simplify := true } } true).that

/-- The flag `simplify` is changed to true and then the flag `showNav` is
changed to true: each listener runs with the model already updated, the
second on the component as the first leaves it. -/
def simplifyThenShowNav (m : Engine) (that : Component) : Component :=
  let t1 := (set m { that with model := { that.model with simplify := true } } true).that
  (toggleNav m { t1 with model := { t1.model with showNav := true } } true).that

/-! ### Notions used to state the properties -/

/-- The inline visibility of the nodes of the page that carry an identifier. -/
def visibilityAt (dom : Dom) (id : Nat) : List String :=
  (dom.filter (fun n => n.id == id)).map (fun n => n.visibility)

/-- The child lists of the nodes of the page that carry an identifier. -/
def childrenAt (dom : Dom) (id : Nat) : List (List Nat) :=
  (dom.filter (fun n => n.id == id)).map (fun n => n.children)

/-- What the selector engine and the DOM binder can see of a node: the part
of a node that no function of the component rewrites. -/
def staticKey (n : Node) : Nat × Bool × Bool × Attrs :=
  (n.id, n.underContainer, n.isElement, n.attrs)

/-- The elements a name locates: those of the collection that `that.locate`
gives, none when it gives `undefined`. -/
def locatedIn (m : Engine) (selectors : Selectors) (container : Nat) (dom : Dom)
    (name : String) : List Nat :=
  (locateIn m selectors container dom name).getD []

/-- The elements a name locates on the page of the component. -/
def located (m : Engine) (that : Component) (name : String) : List Nat :=
  locatedIn m that.options.selectors that.container that.dom name

/-- Whether a name is a key of the selector table. -/
def hasEntry (o : Options) (name : String) : Bool :=
  (o.selectors.get name).isSome

/-- Whether every always visible name is a key of the selector table. -/
def allEntries (o : Options) : Bool :=
  o.alwaysVisible.all (hasEntry o)

/-- The always visible names that the loop of `set` gets to: those before the
first name without entry. -/
def reachedNames (o : Options) : List String :=
  o.alwaysVisible.takeWhile (hasEntry o)

/-- The elements the always visible names locate, name after name. -/
def alwaysVisibleNow (m : Engine) (that : Component) : List Nat :=
  that.options.alwaysVisible.flatMap (located m that)

/-- The elements located by the always visible names that the loop of `set`
gets to. -/
def alwaysVisibleReached (m : Engine) (that : Component) : List Nat :=
  (reachedNames that.options).flatMap (located m that)

/-- The page once `set` has shown the content and the always visible elements
and has hidden the container. -/
def activated (m : Engine) (that : Component) : Dom :=
  css [that.container] "hidden"
    (css (alwaysVisibleNow m that) "visible" (css that.content "visible" that.dom))

/-- The inline visibility that `set(that, true)` leaves on a node of the page
when it returns: `hidden` on the container, `visible` on the content and on
the always visible elements, and what it was elsewhere. -/
def activatedVisibility (m : Engine) (that : Component) (n : Node) : String :=
  if n.id = that.container then "hidden"
  else if n.id ∈ that.content ∨ n.id ∈ alwaysVisibleNow m that then "visible"
  else n.visibility

/-- The condition under which `set(that, true)` injects a toggle: injection is
configured, no toggle is located, and the navigation region is not empty. -/
def injects (m : Engine) (that : Component) : Bool :=
  that.options.injectNavToggle && (located m that "navToggle").isEmpty && !that.nav.isEmpty

/-- The page once `set(that, true)` is past the injection of the toggle. -/
def afterInjection (m : Engine) (that : Component) : Dom :=
  if injects m that then
    match that.content.head? with
    | some first => prepend that.container first (newToggle that) (activated m that)
    | none => activated m that
  else
    activated m that

/-- The targets the observer of the component is registered on, with their
configurations; none when there is no observer. -/
def registrations (that : Component) : List (Nat × ObserveConfig) :=
  match that.observer with
  | some o => o.registered
  | none => []

/-- The nodes of a batch that `onAlwaysVisibleNodeAdded` is due for: record
after record, the nodes listed in `addedNodes`, in list order, that have a
`matches` method and satisfy the selector. -/
def matchingAdded (m : Engine) (dom : Dom) (selector : String)
    (mutationRecords : List MutationRecord) : List Nat :=
  mutationRecords.flatMap (fun r => r.addedNodes.filter (fun node => nodeMatches m dom selector node))

/-- The compound always visible selector: what `fluid.get` finds for the
configured names, in configured order, what is missing or falsy skipped,
joined with a comma. -/
def compoundSelector (m : Engine) (o : Options) : String :=
  ",".intercalate (o.alwaysVisible.filterMap (fluidGet m o.selectors))

/-! ### A concrete engine and concrete pages -/

/-- Whether an attribute of an element holds a word. -/
def hasWord (a : Attrs) (name word : String) : Bool :=
  match a.attributes.lookup name with
  | some words => decide (word ∈ words)
  | none => false

/-- The verdict of a CSS engine on the selector strings of the default
options, and on the compound selector they give; an element satisfies no
other string. -/
def cssDefaultMatches (selector : String) (a : Attrs) : Bool :=
  let toggle := decide ("gpiic-simplify-navToggle" ∈ a.classes)
  let nav := decide (a.tag = "nav") || hasWord a "role" "navigation"
    || decide ("navigation" ∈ a.classes) || decide ("nav" ∈ a.classes)
    || hasWord a "id" "nav" || hasWord a "id" "navigation"
  let search := hasWord a "role" "search" || hasWord a "type" "search"
  let visible := decide ("gpiic-simplify-visible" ∈ a.classes)
  if selector = ".gpiic-simplify-navToggle" then toggle
  else if selector = "nav, [role~=\x27navigation\x27], .navigation, .nav, #nav, #navigation" then nav
  else if selector = "[role~=\x27search\x27], [type~=\x27search\x27]" then search
  else if selector = ".gpiic-simplify-visible" then visible
  else if selector = "[role~=\x27search\x27], [type~=\x27search\x27],.gpiic-simplify-visible" then
    search || visible
  else false

/-- The browser of the examples: the verdicts of `cssDefaultMatches`. No
example names a path that leads into a string, so that no property of a
string is ever read; the answer there is left at `none`. -/
def cssDefault : Engine :=
  { elementMatches := cssDefaultMatches
    stringPath := fun _ _ => none }

/-- An element of a page as authored: no inline style, shown, no
`aria-pressed`, no handler. -/
def element (id : Nat) (tag : String) (classes : List String)
    (attributes : List (String × List String)) (children : List Nat) (underContainer : Bool) :
    Node :=
  { id := id, isElement := true, attrs := { tag := tag, classes := classes, attributes := attributes }
    text := "", children := children, underContainer := underContainer, visibility := ""
    displayNone := false, ariaPressed := none, clickHandlers := 0 }

/-- A page: `body` (the container) holds a `nav`, a `main` (the content) with a
search input and an element of class `gpiic-simplify-visible`, and a
paragraph. -/
def demoDom : Dom :=
  [ element 0 "body" [] [] [1, 2, 5] false,
    element 1 "nav" [] [] [] true,
    element 2 "main" [] [] [3, 4] true,
    element 3 "input" [] [("type", ["search"])] [] true,
    element 4 "div" ["gpiic-simplify-visible"] [] [] true,
    element 5 "p" [] [] [] true ]

/-- The component over `demoDom` as created with the default options. -/
def demoThat : Component :=
  { options := defaults, model := { simplify := false, showNav := false }, container := 0
    content := [2], nav := [1], observer := none, observersBuilt := 0, fired := [], dom := demoDom }

/-- The component over a page whose content region is empty. -/
def demoNoContent : Component :=
  { demoThat with content := [] }

/-- A page whose navigation region is itself a search landmark:
`<nav role="search">` next to the `main` content. -/
def searchNavDom : Dom :=
  [ element 0 "body" [] [] [1, 2] false,
    element 1 "nav" [] [("role", ["search"])] [] true,
    element 2 "main" [] [] [] true ]

/-- The component over `searchNavDom` as created with the default options. -/
def searchNavBase : Component :=
  { options := defaults, model := { simplify := false, showNav := false }, container := 0
    content := [2], nav := [1], observer := none, observersBuilt := 0, fired := []
    dom := searchNavDom }

/-- The component over `searchNavDom` after `simplify` and then `showNav` have
been switched on. -/
def searchNavThat : Component :=
  (changeShowNav cssDefault (changeSimplify cssDefault searchNavBase true).that true).that

/-- The default options with a toggle markup that lacks the class the
`navToggle` selector looks for. -/
def plainToggleOptions : Options :=
  { defaults with markupNavToggle := { tag := "button", classes := [], attributes := [] } }

/-- The component over `demoDom` created with `plainToggleOptions`. -/
def plainToggleThat : Component :=
  { demoThat with options := plainToggleOptions }

/-- The default options with `navToggle` added to the always visible names. -/
def toggleVisibleOptions : Options :=
  { defaults with alwaysVisible := ["search", "visible", "navToggle"] }

/-- The component over `demoDom` created with `toggleVisibleOptions`. -/
def toggleVisibleThat : Component :=
  { demoThat with options := toggleVisibleOptions }

/-- The component `demoThat` after `set(that, true)`. -/
def demoActive : Component :=
  (set cssDefault demoThat true).that

/-- The watcher that `set` builds for `demoThat`, registered on the container. -/
def demoObserver : Observer :=
  { serial := 0
    selectors := ["[role~=\x27search\x27], [type~=\x27search\x27]", ".gpiic-simplify-visible"]
    registered := [(0, { attributes := false, childList := true, subtree := true })] }

/-- The page of `set cssDefault demoThat true` (the injected toggle is node 6)
after a script has appended to `main` a `div` (node 7) that wraps a search
input (node 8). -/
def wrappedDom : Dom :=
  [ { element 0 "body" [] [] [1, 2, 5] false with visibility := "hidden" },
    element 1 "nav" [] [] [] true,
    { element 2 "main" [] [] [6, 3, 4, 7] true with visibility := "visible" },
    { element 6 "button" ["gpiic-simplify-navToggle", "gpii-simplify-navToggle"] [] [] true with
      text := "Show/Hide Navigation", ariaPressed := some false, clickHandlers := 1 },
    { element 3 "input" [] [("type", ["search"])] [] true with visibility := "visible" },
    { element 4 "div" ["gpiic-simplify-visible"] [] [] true with visibility := "visible" },
    element 7 "div" [] [] [8] true,
    element 8 "input" [] [("type", ["search"])] [] true,
    element 5 "p" [] [] [] true ]

/-- The component after `set cssDefault demoThat true` and that insertion. -/
def wrappedThat : Component :=
  { (set cssDefault demoThat true).that with dom := wrappedDom }

/-- The batch that reports the insertion of node 7 under `main`. -/
def wrappedBatch : List MutationRecord :=
  [ { type := "childList", target := 2, addedNodes := [7], removedNodes := [] } ]

/-- The record a script causes when it appends the search input (node 8) to
the wrapper (node 7) that is already in the page, and removes the paragraph. -/
def stepwiseRecord : MutationRecord :=
  { type := "childList", target := 7, addedNodes := [8], removedNodes := [5] }

/-- The batch of a script that appends the empty wrapper to `main`, then the
search input to the wrapper, and then changes an attribute of `main`. -/
def stepwiseBatch : List MutationRecord :=
  [ { type := "childList", target := 2, addedNodes := [7], removedNodes := [] },
    stepwiseRecord,
    { type := "attributes", target := 2, addedNodes := [], removedNodes := [] } ]

/-- The batch of a script that appends the search input (node 8) to the
wrapper, takes it out again and appends it once more: two records list the
node as added. -/
def twiceBatch : List MutationRecord :=
  [ { type := "childList", target := 7, addedNodes := [8], removedNodes := [] },
    { type := "childList", target := 7, addedNodes := [], removedNodes := [8] },
    { type := "childList", target := 7, addedNodes := [8], removedNodes := [] } ]

/-- The default options with, between the two default names, an always
visible name that has no entry in the selector table. -/
def missingOptions : Options :=
  { defaults with alwaysVisible := ["search", "missing", "visible"] }

/-- The component over `demoDom` created with `missingOptions`. -/
def missingThat : Component :=
  { demoThat with options := missingOptions }

/-- The default options with one more selector, filed under a key that holds a
dot, as the only always visible name. -/
def dottedOptions : Options :=
  { defaults with
    selectors := { defaults.selectors with others := [("my.sel", some ".gpiic-simplify-visible")] }
    alwaysVisible := ["my.sel"] }

/-- The component over `demoDom` created with `dottedOptions`. -/
def dottedThat : Component :=
  { demoThat with options := dottedOptions }

/-- The page of `set cssDefault dottedThat true` (the injected toggle is node
6) after a script has appended to `main` an element of class
`gpiic-simplify-visible` (node 7). -/
def dottedDom : Dom :=
  [ { element 0 "body" [] [] [1, 2, 5] false with visibility := "hidden" },
    element 1 "nav" [] [] [] true,
    { element 2 "main" [] [] [6, 3, 4, 7] true with visibility := "visible" },
    { element 6 "button" ["gpiic-simplify-navToggle", "gpii-simplify-navToggle"] [] [] true with
      text := "Show/Hide Navigation", ariaPressed := some false, clickHandlers := 1 },
    element 3 "input" [] [("type", ["search"])] [] true,
    { element 4 "div" ["gpiic-simplify-visible"] [] [] true with visibility := "visible" },
    element 7 "div" ["gpiic-simplify-visible"] [] [] true,
    element 5 "p" [] [] [] true ]

/-- The component after `set cssDefault dottedThat true` and that insertion. -/
def dottedActive : Component :=
  { (set cssDefault dottedThat true).that with dom := dottedDom }

/-- The batch that reports the insertion of node 7 under `main`. -/
def dottedBatch : List MutationRecord :=
  [ { type := "childList", target := 2, addedNodes := [7], removedNodes := [] } ]

end simplify

/-! ## Theorems -/

section Lemmas

theorem foldl_snoc_eq_append_map {α β : Type} (f : α → β) (xs : List α) (acc : List β) :
    xs.foldl (fun a x => a ++ [f x]) acc = acc ++ xs.map f := by
  induction xs generalizing acc with
  | nil => simp
  | cons x xs ih => simp [ih]

end Lemmas

namespace chrome.mutationObserver

theorem relayRecord_eq (fired : List Event) (r : MutationRecord) :
    relayRecord fired r = fired ++ eventsOfRecord r := by
  unfold relayRecord eventsOfRecord
  simp only [foldl_snoc_eq_append_map]
  split <;> simp

theorem foldl_relayRecord (rs : List MutationRecord) (fired : List Event) :
    rs.foldl relayRecord fired = fired ++ rs.flatMap eventsOfRecord := by
  induction rs generalizing fired with
  | nil => simp
  | cons r rs ih => simp [ih, relayRecord_eq]

/-- C1: for every batch of mutation records, the events fired by the callback
of `createObserver` are exactly the concatenation, over the records in arrival
order, of one `onNodeAdded(node, record)` per added node in list order, then
one `onNodeRemoved(node, record)` per removed node in list order, then one
`onAttributeChanged(record.target, record)` exactly when the type of the
record is `attributes`. -/
theorem createObserver_fires_exactly (mutationRecords : List MutationRecord) :
    createObserver mutationRecords =
      mutationRecords.flatMap (fun r =>
        r.addedNodes.map (fun node => Event.onNodeAdded node r)
          ++ r.removedNodes.map (fun node => Event.onNodeRemoved node r)
          ++ (if r.type = "attributes" then [Event.onAttributeChanged r.target r] else [])) := by
  unfold createObserver
  rw [foldl_relayRecord, List.nil_append]
  rfl

end chrome.mutationObserver

namespace simplify

/-! ### The page operations -/

theorem staticKey_css (ids : List Nat) (v : String) (d : Dom) :
    (css ids v d).map staticKey = d.map staticKey := by
  simp only [css, List.map_map]
  apply List.map_congr_left
  intro n _
  simp only [Function.comp]
  split <;> rfl

theorem staticKey_jqShow (ids : List Nat) (d : Dom) :
    (jqShow ids d).map staticKey = d.map staticKey := by
  simp only [jqShow, List.map_map]
  apply List.map_congr_left
  intro n _
  simp only [Function.comp]
  split <;> rfl

theorem staticKey_jqHide (ids : List Nat) (d : Dom) :
    (jqHide ids d).map staticKey = d.map staticKey := by
  simp only [jqHide, List.map_map]
  apply List.map_congr_left
  intro n _
  simp only [Function.comp]
  split <;> rfl

theorem staticKey_attrAriaPressed (ids : List Nat) (v : Bool) (d : Dom) :
    (attrAriaPressed ids v d).map staticKey = d.map staticKey := by
  simp only [attrAriaPressed, List.map_map]
  apply List.map_congr_left
  intro n _
  simp only [Function.comp]
  split <;> rfl

theorem located_of_keys (m : Engine) (c : Nat) (sel : String) (d : Dom) :
    (d.filter (fun n =>
        n.underContainer && n.id != c && n.isElement && m.elementMatches sel n.attrs)).map (fun n => n.id)
      = ((d.map staticKey).filter (fun k =>
        k.2.1 && k.1 != c && k.2.2.1 && m.elementMatches sel k.2.2.2)).map (fun k => k.1) := by
  induction d with
  | nil => rfl
  | cons n ns ih =>
    simp only [List.filter_cons, List.map_cons, staticKey]
    split <;> simp_all [staticKey]

theorem collectionOf_congr (m : Engine) (c : Nat) {d d1 : Dom} (s : Option String)
    (hd : d1.map staticKey = d.map staticKey) :
    collectionOf m c d1 s = collectionOf m c d s := by
  cases s with
  | none => rfl
  | some sel =>
    simp only [collectionOf]
    rw [located_of_keys, located_of_keys, hd]

theorem locateIn_congr (m : Engine) (sels : Selectors) (c : Nat) {d d1 : Dom}
    (name : String) (hd : d1.map staticKey = d.map staticKey) :
    locateIn m sels c d1 name = locateIn m sels c d name := by
  unfold locateIn
  cases sels.get name with
  | none => rfl
  | some s => simp only [Option.map_some']; rw [collectionOf_congr m c s hd]

theorem locatedIn_congr (m : Engine) (sels : Selectors) (c : Nat) {d d1 : Dom}
    (name : String) (hd : d1.map staticKey = d.map staticKey) :
    locatedIn m sels c d1 name = locatedIn m sels c d name := by
  unfold locatedIn
  rw [locateIn_congr m sels c name hd]

@[simp] theorem locatedIn_css (m : Engine) (sels : Selectors) (c : Nat) (d : Dom)
    (ids : List Nat) (v : String) :
    locatedIn m sels c (css ids v d) = locatedIn m sels c d :=
  funext fun name => locatedIn_congr m sels c name (staticKey_css _ _ _)

@[simp] theorem locatedIn_jqShow (m : Engine) (sels : Selectors) (c : Nat) (d : Dom)
    (ids : List Nat) :
    locatedIn m sels c (jqShow ids d) = locatedIn m sels c d :=
  funext fun name => locatedIn_congr m sels c name (staticKey_jqShow _ _)

@[simp] theorem locatedIn_jqHide (m : Engine) (sels : Selectors) (c : Nat) (d : Dom)
    (ids : List Nat) :
    locatedIn m sels c (jqHide ids d) = locatedIn m sels c d :=
  funext fun name => locatedIn_congr m sels c name (staticKey_jqHide _ _)

@[simp] theorem locatedIn_attrAriaPressed (m : Engine) (sels : Selectors) (c : Nat)
    (d : Dom) (ids : List Nat) (v : Bool) :
    locatedIn m sels c (attrAriaPressed ids v d) = locatedIn m sels c d :=
  funext fun name => locatedIn_congr m sels c name (staticKey_attrAriaPressed _ _ _)

@[simp] theorem that_ok (t : Component) : Outcome.that (.ok t) = t := rfl

@[simp] theorem that_error (t : Component) : Outcome.that (.error t) = t := rfl

theorem located_fn (m : Engine) (t : Component) :
    located m t = locatedIn m t.options.selectors t.container t.dom := rfl

theorem locate_eq (m : Engine) (t : Component) (name : String) :
    locate m t name = if hasEntry t.options name then some (located m t name) else none := by
  unfold locate located locatedIn locateIn hasEntry
  cases t.options.selectors.get name <;> simp

theorem hasEntry_navToggle (o : Options) : hasEntry o "navToggle" = true := by
  simp [hasEntry, Selectors.get]

theorem locate_navToggle (m : Engine) (t : Component) :
    locate m t "navToggle" = some (located m t "navToggle") := by
  rw [locate_eq, hasEntry_navToggle]
  rfl

@[simp] theorem ids_css (ids : List Nat) (v : String) (d : Dom) :
    (css ids v d).map (fun n => n.id) = d.map (fun n => n.id) := by
  simp only [css, List.map_map]
  apply List.map_congr_left
  intro n _
  simp only [Function.comp]
  split <;> rfl

theorem located_eq_of (m : Engine) (t t1 : Component) (ho : t1.options = t.options)
    (hc : t1.container = t.container) (hd : t1.dom.map staticKey = t.dom.map staticKey) :
    located m t1 = located m t := by
  funext name
  unfold located
  rw [ho, hc]
  exact locatedIn_congr m _ _ name hd

theorem css_css (a b : List Nat) (v : String) (d : Dom) :
    css b v (css a v d) = css (a ++ b) v d := by
  simp only [css, List.map_map]
  apply List.map_congr_left
  intro n _
  simp only [Function.comp, List.mem_append]
  by_cases ha : n.id ∈ a <;> by_cases hb : n.id ∈ b <;> simp [ha, hb]

theorem css_nil (v : String) (d : Dom) : css [] v d = d := by
  simp [css]

theorem eachAlwaysVisible_eq (m : Engine) (v : String) (names : List String) (u : Component) :
    eachAlwaysVisible m v names u =
      if names.all (hasEntry u.options) then
        .ok { u with dom := css (names.flatMap (located m u)) v u.dom }
      else
        .error
          { u with
            dom := css ((names.takeWhile (hasEntry u.options)).flatMap (located m u)) v u.dom } := by
  induction names generalizing u with
  | nil => simp [eachAlwaysVisible, css_nil]
  | cons a rest ih =>
    unfold eachAlwaysVisible
    rw [locate_eq]
    by_cases ha : hasEntry u.options a = true
    · simp only [ha, if_true, List.all_cons, Bool.true_and, List.takeWhile_cons,
        List.flatMap_cons]
      rw [ih]
      have h : located m { u with dom := css (located m u a) v u.dom } = located m u := by
        simp [located_fn]
      simp only [h, css_css]
    · simp only [Bool.not_eq_true] at ha
      simp [ha, css_nil]

/-! ### The observer -/

@[simp] theorem ensureObserver_dom (m : Engine) (t : Component) : (ensureObserver m t).dom = t.dom := by
  unfold ensureObserver; split <;> rfl

@[simp] theorem ensureObserver_options (m : Engine) (t : Component) :
    (ensureObserver m t).options = t.options := by
  unfold ensureObserver; split <;> rfl

@[simp] theorem ensureObserver_model (m : Engine) (t : Component) : (ensureObserver m t).model = t.model := by
  unfold ensureObserver; split <;> rfl

@[simp] theorem ensureObserver_container (m : Engine) (t : Component) :
    (ensureObserver m t).container = t.container := by
  unfold ensureObserver; split <;> rfl

@[simp] theorem ensureObserver_content (m : Engine) (t : Component) :
    (ensureObserver m t).content = t.content := by
  unfold ensureObserver; split <;> rfl

@[simp] theorem ensureObserver_nav (m : Engine) (t : Component) : (ensureObserver m t).nav = t.nav := by
  unfold ensureObserver; split <;> rfl

@[simp] theorem ensureObserver_fired (m : Engine) (t : Component) : (ensureObserver m t).fired = t.fired := by
  unfold ensureObserver; split <;> rfl

@[simp] theorem located_ensureObserver (m : Engine) (t : Component) :
    located m (ensureObserver m t) = located m t := by
  simp [located_fn]

@[simp] theorem alwaysVisibleNow_ensureObserver (m : Engine) (t : Component) :
    alwaysVisibleNow m (ensureObserver m t) = alwaysVisibleNow m t := by
  simp [alwaysVisibleNow]

@[simp] theorem freshId_ensureObserver (m : Engine) (t : Component) :
    freshId (ensureObserver m t) = freshId t := by
  simp [freshId]

@[simp] theorem newToggle_ensureObserver (m : Engine) (t : Component) :
    newToggle (ensureObserver m t) = newToggle t := by
  simp [newToggle]

/-! ### `set` unfolded -/

theorem isEmpty_of_ne_nil {t : Component} (h : t.content ≠ []) : (!t.content.isEmpty) = true := by
  cases hc : t.content with
  | nil => exact absurd hc h
  | cons a l => rfl

theorem alwaysVisibleNow_of_all (m : Engine) (t : Component)
    (ha : allEntries t.options = true) : alwaysVisibleReached m t = alwaysVisibleNow m t := by
  unfold alwaysVisibleReached alwaysVisibleNow reachedNames
  unfold allEntries at ha
  rw [List.takeWhile_eq_self_iff.2 (by simpa using ha)]

theorem set_false_eq (m : Engine) (t : Component) (h : t.content ≠ [])
    (ha : allEntries t.options = true) :
    set m t false =
      .ok { ensureObserver m t with
        dom := css (alwaysVisibleNow m t) ""
          (css t.content "" (css [t.container] "" (jqHide (located m t "navToggle") t.dom)))
        observer := (ensureObserver m t).observer.map Observer.disconnect } := by
  have hne := isEmpty_of_ne_nil h
  have ha1 : t.options.alwaysVisible.all (hasEntry t.options) = true := ha
  unfold set
  simp only [Bool.false_and, Bool.false_eq_true, if_false, eachAlwaysVisible_eq, alwaysVisibleNow,
    ensureObserver_options, ensureObserver_container, ensureObserver_content, ensureObserver_dom,
    located_ensureObserver, ensureObserver_model, ensureObserver_nav, ensureObserver_fired, hne,
    if_true, locate_navToggle, ha1]
  congr 4
  apply located_eq_of <;> simp [staticKey_css, staticKey_jqHide]

theorem set_false_raise (m : Engine) (t : Component) (h : t.content ≠ [])
    (ha : allEntries t.options = false) :
    set m t false =
      .error { ensureObserver m t with
        dom := css (alwaysVisibleReached m t) ""
          (css t.content "" (css [t.container] "" (jqHide (located m t "navToggle") t.dom))) } := by
  have hne := isEmpty_of_ne_nil h
  have ha1 : t.options.alwaysVisible.all (hasEntry t.options) = false := ha
  unfold set
  simp only [Bool.false_and, Bool.false_eq_true, if_false, eachAlwaysVisible_eq,
    alwaysVisibleReached, reachedNames,
    ensureObserver_options, ensureObserver_container, ensureObserver_content, ensureObserver_dom,
    located_ensureObserver, ensureObserver_model, ensureObserver_nav, ensureObserver_fired, hne,
    if_true, locate_navToggle, ha1]
  congr 4
  apply located_eq_of <;> simp [staticKey_css, staticKey_jqHide]

theorem ids_of_keys {d d1 : Dom} (h : d1.map staticKey = d.map staticKey) :
    d1.map (fun n => n.id) = d.map (fun n => n.id) := by
  have := congrArg (List.map (fun k : Nat × Bool × Bool × Attrs => k.1)) h
  simpa [List.map_map, Function.comp, staticKey] using this

theorem newToggle_eq_of (t t1 : Component) (ho : t1.options = t.options)
    (hm : t1.model = t.model) (hc : t1.container = t.container) (hcon : t1.content = t.content)
    (hn : t1.nav = t.nav) (hd : t1.dom.map staticKey = t.dom.map staticKey) :
    newToggle t1 = newToggle t := by
  simp only [newToggle, freshId, ho, hm, hc, hcon, hn, ids_of_keys hd]

theorem staticKey_activated (m : Engine) (t : Component) :
    (activated m t).map staticKey = t.dom.map staticKey := by
  simp [activated, staticKey_css]

theorem injectToggle_eq (m : Engine) (t : Component) (content : List Nat) :
    injectToggle m t content =
      .ok { t with
        dom :=
          if (located m t "navToggle").isEmpty && !t.nav.isEmpty then
            match content.head? with
            | some first => prepend t.container first (newToggle t) t.dom
            | none => t.dom
          else t.dom } := by
  unfold injectToggle
  rw [locate_navToggle]
  by_cases hc : ((located m t "navToggle").isEmpty && !t.nav.isEmpty) = true
  · simp only [hc, if_true]
    cases content.head? <;> rfl
  · simp only [hc, if_false]
    rfl

theorem set_true_eq (m : Engine) (t : Component) (h : t.content ≠ [])
    (ha : allEntries t.options = true) :
    set m t true =
      .ok { ensureObserver m t with
        dom := jqShow
          (locatedIn m t.options.selectors t.container (afterInjection m t) "navToggle")
          (afterInjection m t)
        observer := (ensureObserver m t).observer.map (fun o =>
          o.observe t.container { childList := true, subtree := true, attributes := false }) } := by
  have hne := isEmpty_of_ne_nil h
  have ha1 : t.options.alwaysVisible.all (hasEntry t.options) = true := ha
  unfold set
  simp only [ensureObserver_content, Bool.true_and, eachAlwaysVisible_eq, alwaysVisibleNow, hne,
    if_true, ensureObserver_options, ha1]
  by_cases hinj : t.options.injectNavToggle = true
  · simp [hinj, injectToggle_eq, located_fn, afterInjection, injects, activated, alwaysVisibleNow,
      newToggle, freshId, locate_navToggle]
  · simp [hinj, located_fn, afterInjection, injects, activated, alwaysVisibleNow, locate_navToggle]

theorem set_true_raise (m : Engine) (t : Component) (h : t.content ≠ [])
    (ha : allEntries t.options = false) :
    set m t true =
      .error { ensureObserver m t with
        dom := css (alwaysVisibleReached m t) "visible" (css t.content "visible" t.dom) } := by
  have hne := isEmpty_of_ne_nil h
  have ha1 : t.options.alwaysVisible.all (hasEntry t.options) = false := ha
  unfold set
  simp only [ensureObserver_content, Bool.true_and, eachAlwaysVisible_eq, alwaysVisibleReached,
    reachedNames, hne, if_true, ensureObserver_options, ha1]
  simp [located_fn]

theorem set_of_empty (m : Engine) (t : Component) (state : Bool) (h : t.content = []) :
    set m t state = .ok (ensureObserver m t) := by
  unfold set
  simp [h]

theorem ensureObserver_some (m : Engine) (t : Component) : ∃ o, (ensureObserver m t).observer = some o := by
  unfold ensureObserver
  cases h : t.observer with
  | none => exact ⟨_, rfl⟩
  | some o => exact ⟨o, h⟩

theorem ensureObserver_of_some (m : Engine) (t : Component) (o : Observer) (h : t.observer = some o) :
    ensureObserver m t = t := by
  unfold ensureObserver
  rw [h]

theorem visibility_of_mem_css {ids : List Nat} {v : String} {d : Dom} {n : Node}
    (h : n ∈ css ids v d) (hid : n.id ∈ ids) : n.visibility = v := by
  simp only [css, List.mem_map] at h
  obtain ⟨n0, _, rfl⟩ := h
  by_cases h0 : n0.id ∈ ids
  · simp [h0]
  · simp only [h0, if_false] at hid

/-! ### Fresh identifiers -/

theorem le_foldr_max {l : List Nat} {x : Nat} (h : x ∈ l) : x ≤ l.foldr max 0 := by
  induction l with
  | nil => cases h
  | cons a l ih =>
    simp only [List.foldr_cons]
    rcases List.mem_cons.1 h with rfl | h1
    · exact le_max_left _ _
    · exact le_trans (ih h1) (le_max_right _ _)

theorem container_lt_freshId (t : Component) : t.container < freshId t := by
  unfold freshId
  exact Nat.lt_succ_of_le (le_foldr_max (List.mem_cons_self _ _))

theorem content_lt_freshId (t : Component) {x : Nat} (h : x ∈ t.content) : x < freshId t := by
  unfold freshId
  apply Nat.lt_succ_of_le
  apply le_foldr_max
  simp [h]

theorem nav_lt_freshId (t : Component) {x : Nat} (h : x ∈ t.nav) : x < freshId t := by
  unfold freshId
  apply Nat.lt_succ_of_le
  apply le_foldr_max
  simp [h]

theorem node_lt_freshId (t : Component) {n : Node} (h : n ∈ t.dom) : n.id < freshId t := by
  unfold freshId
  apply Nat.lt_succ_of_le
  apply le_foldr_max
  simp only [List.mem_cons, List.mem_append, List.mem_map]
  exact Or.inr (Or.inr ⟨n, h, rfl⟩)

theorem locatedIn_eq (m : Engine) (sels : Selectors) (c : Nat) (d : Dom) (name : String) :
    locatedIn m sels c d name =
      match sels.get name with
      | some s => collectionOf m c d s
      | none => [] := by
  unfold locatedIn locateIn
  cases sels.get name <;> rfl

theorem mem_collectionOf {m : Engine} {c : Nat} {d : Dom} {s : Option String} {x : Nat}
    (h : x ∈ collectionOf m c d s) : x = c ∨ ∃ n ∈ d, n.id = x := by
  unfold collectionOf at h
  split at h
  · cases h
  · split at h
    · exact Or.inl (List.mem_singleton.1 h)
    · simp only [List.mem_map, List.mem_filter] at h
      obtain ⟨n, ⟨hn, _⟩, rfl⟩ := h
      exact Or.inr ⟨n, hn, rfl⟩

theorem mem_locatedIn {m : Engine} {sels : Selectors} {c : Nat} {d : Dom}
    {name : String} {x : Nat} (h : x ∈ locatedIn m sels c d name) :
    x = c ∨ ∃ n ∈ d, n.id = x := by
  rw [locatedIn_eq] at h
  split at h
  · exact mem_collectionOf h
  · cases h

theorem located_lt_freshId (m : Engine) (t : Component) {name : String} {x : Nat}
    (h : x ∈ located m t name) : x < freshId t := by
  rcases mem_locatedIn h with rfl | ⟨n, hn, rfl⟩
  · exact container_lt_freshId t
  · exact node_lt_freshId t hn

theorem alwaysVisibleNow_lt_freshId (m : Engine) (t : Component) {x : Nat}
    (h : x ∈ alwaysVisibleNow m t) : x < freshId t := by
  simp only [alwaysVisibleNow, List.mem_flatMap] at h
  obtain ⟨name, _, hx⟩ := h
  exact located_lt_freshId m t hx

/-! ### `prepend` -/

theorem prepend_eq (c p : Nat) (ch : Node) (d : Dom) :
    (prepend c p ch d = d ∧ ∀ n ∈ d, n.id ≠ p) ∨
    ∃ l1 n0 l2, d = l1 ++ n0 :: l2 ∧ n0.id = p ∧ (∀ n ∈ l1, n.id ≠ p) ∧
      prepend c p ch d =
        l1 ++ { n0 with children := ch.id :: n0.children }
          :: { ch with underContainer := n0.underContainer || n0.id == c } :: l2 := by
  induction d with
  | nil => exact Or.inl ⟨rfl, fun n hn => (by cases hn)⟩
  | cons n ns ih =>
    by_cases hp : n.id = p
    · right
      refine ⟨[], n, ns, rfl, hp, fun x hx => (by cases hx), ?_⟩
      simp [prepend, hp]
    · rcases ih with ⟨he, hall⟩ | ⟨l1, n0, l2, hd, hn0, hl1, he⟩
      · left
        refine ⟨by simp [prepend, hp, he], ?_⟩
        intro x hx
        rcases List.mem_cons.1 hx with rfl | hx1
        · exact hp
        · exact hall x hx1
      · right
        refine ⟨n :: l1, n0, l2, by simp [hd], hn0, ?_, by simp [prepend, hp, he]⟩
        intro x hx
        rcases List.mem_cons.1 hx with rfl | hx1
        · exact hp
        · exact hl1 x hx1

theorem mem_prepend {c p : Nat} {ch : Node} {d : Dom} {n : Node}
    (h : n ∈ prepend c p ch d) :
    (∃ n0 ∈ d, n = n0 ∨ n = { n0 with children := ch.id :: n0.children }) ∨
    ∃ b, n = { ch with underContainer := b } := by
  rcases prepend_eq c p ch d with ⟨he, _⟩ | ⟨l1, n0, l2, hd, _, _, he⟩
  · rw [he] at h
    exact Or.inl ⟨n, h, Or.inl rfl⟩
  · rw [he] at h
    simp only [List.mem_append, List.mem_cons] at h
    rcases h with h | rfl | rfl | h
    · exact Or.inl ⟨n, by simp [hd, h], Or.inl rfl⟩
    · exact Or.inl ⟨n0, by simp [hd], Or.inr rfl⟩
    · exact Or.inr ⟨_, rfl⟩
    · exact Or.inl ⟨n, by simp [hd, h], Or.inl rfl⟩

/-! ### The page after `set(that, true)` -/

theorem css_eq_map (ids : List Nat) (v : String) (d : Dom) :
    css ids v d =
      d.map (fun n => { n with visibility := if n.id ∈ ids then v else n.visibility }) := by
  unfold css
  apply List.map_congr_left
  intro n _
  by_cases h : n.id ∈ ids <;> simp [h]

theorem activated_eq (m : Engine) (t : Component) :
    activated m t = t.dom.map (fun n => { n with visibility := activatedVisibility m t n }) := by
  simp only [activated, css_eq_map, List.map_map]
  apply List.map_congr_left
  intro n _
  simp only [Function.comp, activatedVisibility, List.mem_singleton]
  by_cases h1 : n.id ∈ t.content <;> by_cases h2 : n.id ∈ alwaysVisibleNow m t <;>
    simp [h1, h2]

theorem afterInjection_of_not (m : Engine) (t : Component) (h : injects m t = false) :
    afterInjection m t = activated m t := by
  simp [afterInjection, h]

theorem afterInjection_of_injects (m : Engine) (t : Component) (h : injects m t = true)
    (first : Nat) (hf : t.content.head? = some first) :
    afterInjection m t = prepend t.container first (newToggle t) (activated m t) := by
  simp [afterInjection, h, hf]

theorem mem_afterInjection {m : Engine} {t : Component} {n : Node}
    (h : n ∈ afterInjection m t) :
    (∃ n0 ∈ t.dom, n = { n0 with visibility := activatedVisibility m t n0 } ∨
      n = { n0 with visibility := activatedVisibility m t n0
                    children := freshId t :: n0.children }) ∨
    (injects m t = true ∧ ∃ b, n = { newToggle t with underContainer := b }) := by
  have hact : ∀ x, x ∈ activated m t →
      ∃ n0 ∈ t.dom, x = { n0 with visibility := activatedVisibility m t n0 } := by
    intro x hx
    rw [activated_eq, List.mem_map] at hx
    obtain ⟨n0, hn0, rfl⟩ := hx
    exact ⟨n0, hn0, rfl⟩
  cases hi : injects m t with
  | false =>
    rw [afterInjection_of_not m t hi] at h
    obtain ⟨n0, hn0, rfl⟩ := hact n h
    exact Or.inl ⟨n0, hn0, Or.inl rfl⟩
  | true =>
    cases hf : t.content.head? with
    | none =>
      simp only [afterInjection, hi, hf, if_true] at h
      obtain ⟨n0, hn0, rfl⟩ := hact n h
      exact Or.inl ⟨n0, hn0, Or.inl rfl⟩
    | some first =>
      rw [afterInjection_of_injects m t hi first hf] at h
      rcases mem_prepend h with ⟨n1, hn1, h1 | h1⟩ | ⟨b, hb⟩
      · obtain ⟨n0, hn0, rfl⟩ := hact n1 hn1
        exact Or.inl ⟨n0, hn0, Or.inl h1⟩
      · obtain ⟨n0, hn0, rfl⟩ := hact n1 hn1
        exact Or.inl ⟨n0, hn0, Or.inr h1⟩
      · exact Or.inr ⟨rfl, b, hb⟩

theorem mem_jqShow {ids : List Nat} {d : Dom} {n : Node} (h : n ∈ jqShow ids d) :
    ∃ n1 ∈ d, n = n1 ∨ (n1.id ∈ ids ∧ n = { n1 with displayNone := false }) := by
  simp only [jqShow, List.mem_map] at h
  obtain ⟨n1, hn1, rfl⟩ := h
  refine ⟨n1, hn1, ?_⟩
  by_cases hi : n1.id ∈ ids
  · right; simp [hi]
  · left; simp [hi]

theorem set_true_dom (m : Engine) (t : Component) (h : t.content ≠ [])
    (ha : allEntries t.options = true) :
    (set m t true).that.dom =
      jqShow (locatedIn m t.options.selectors t.container (afterInjection m t) "navToggle")
        (afterInjection m t) := by
  rw [set_true_eq m t h ha]
  rfl

theorem mem_set_true_dom {m : Engine} {t : Component} (hc : t.content ≠ [])
    (ha : allEntries t.options = true) {n : Node} (hn : n ∈ (set m t true).that.dom) :
    (∃ n0 ∈ t.dom, n.id = n0.id ∧ n.visibility = activatedVisibility m t n0
      ∧ n.ariaPressed = n0.ariaPressed) ∨
    (injects m t = true ∧ n.id = freshId t ∧ n.visibility = "" ∧
      n.ariaPressed = some t.model.showNav ∧ n.displayNone = false) := by
  rw [set_true_dom m t hc ha] at hn
  obtain ⟨n1, hn1, hcase⟩ := mem_jqShow hn
  rcases mem_afterInjection hn1 with ⟨n0, hn0, h1 | h1⟩ | ⟨hi, b, hb⟩
  · left
    refine ⟨n0, hn0, ?_⟩
    rcases hcase with rfl | ⟨_, rfl⟩ <;> subst h1 <;> simp
  · left
    refine ⟨n0, hn0, ?_⟩
    rcases hcase with rfl | ⟨_, rfl⟩ <;> subst h1 <;> simp
  · right
    refine ⟨hi, ?_⟩
    rcases hcase with rfl | ⟨_, rfl⟩ <;> subst hb <;> simp [newToggle]

theorem displayNone_of_mem_jqShow {ids : List Nat} {d : Dom} {n : Node}
    (h : n ∈ jqShow ids d) (hid : n.id ∈ ids) : n.displayNone = false := by
  simp only [jqShow, List.mem_map] at h
  obtain ⟨n0, _, rfl⟩ := h
  by_cases h0 : n0.id ∈ ids
  · simp [h0]
  · simp only [h0, if_false] at hid

theorem located_set_true (m : Engine) (t : Component) (h : t.content ≠ [])
    (ha : allEntries t.options = true) :
    located m (set m t true).that
      = locatedIn m t.options.selectors t.container (afterInjection m t) := by
  rw [set_true_eq m t h ha]
  simp [located_fn, that_ok, that_error]

theorem mem_observe (o : Observer) (target : Nat) (config : ObserveConfig) :
    (target, config) ∈ (o.observe target config).registered := by
  unfold Observer.observe
  split
  · rename_i hany
    simp only [List.any_eq_true, beq_iff_eq] at hany
    obtain ⟨r, hr, hrt⟩ := hany
    simp only [List.mem_map]
    exact ⟨r, hr, by simp [hrt]⟩
  · simp

theorem set_true_observer (m : Engine) (t : Component) (h : t.content ≠ [])
    (ha : allEntries t.options = true) :
    ∃ o, (ensureObserver m t).observer = some o ∧
      (set m t true).that.observer = some
        (o.observe t.container { attributes := false, childList := true, subtree := true }) := by
  obtain ⟨o, ho⟩ := ensureObserver_some m t
  refine ⟨o, ho, ?_⟩
  rw [set_true_eq m t h ha]
  simp [ho, that_ok, that_error]

/-! ### Children and the injected toggle -/

theorem injects_iff (m : Engine) (t : Component) :
    injects m t = true ↔
      (t.options.injectNavToggle = true ∧ located m t "navToggle" = [] ∧ t.nav ≠ []) := by
  simp [injects, and_assoc]

@[simp] theorem childrenAt_css (ids : List Nat) (v : String) (d : Dom) (id : Nat) :
    childrenAt (css ids v d) id = childrenAt d id := by
  induction d with
  | nil => rfl
  | cons n ns ih =>
    simp only [childrenAt, css, List.map_cons, List.filter_cons] at ih ⊢
    by_cases h1 : n.id ∈ ids <;> by_cases h2 : (n.id == id) = true <;> simp [h1, h2, ih]

@[simp] theorem childrenAt_jqShow (ids : List Nat) (d : Dom) (id : Nat) :
    childrenAt (jqShow ids d) id = childrenAt d id := by
  induction d with
  | nil => rfl
  | cons n ns ih =>
    simp only [childrenAt, jqShow, List.map_cons, List.filter_cons] at ih ⊢
    by_cases h1 : n.id ∈ ids <;> by_cases h2 : (n.id == id) = true <;> simp [h1, h2, ih]

@[simp] theorem length_css (ids : List Nat) (v : String) (d : Dom) :
    (css ids v d).length = d.length := by
  simp [css]

@[simp] theorem length_jqShow (ids : List Nat) (d : Dom) : (jqShow ids d).length = d.length := by
  simp [jqShow]

theorem skeleton_css (ids : List Nat) (v : String) (d : Dom) :
    (css ids v d).map (fun n => (n.id, n.children)) = d.map (fun n => (n.id, n.children)) := by
  simp only [css, List.map_map]
  apply List.map_congr_left
  intro n _
  simp only [Function.comp]
  split <;> rfl

theorem skeleton_jqShow (ids : List Nat) (d : Dom) :
    (jqShow ids d).map (fun n => (n.id, n.children)) = d.map (fun n => (n.id, n.children)) := by
  simp only [jqShow, List.map_map]
  apply List.map_congr_left
  intro n _
  simp only [Function.comp]
  split <;> rfl

theorem length_prepend (c p : Nat) (ch : Node) (d : Dom) (hex : ∃ n ∈ d, n.id = p) :
    (prepend c p ch d).length = d.length + 1 := by
  rcases prepend_eq c p ch d with ⟨_, hall⟩ | ⟨l1, n0, l2, hd, _, _, he⟩
  · obtain ⟨n, hn, hp⟩ := hex
    exact absurd hp (hall n hn)
  · rw [he, hd]
    simp only [List.length_append, List.length_cons]
    omega

theorem childrenAt_prepend_parent (c p : Nat) (ch : Node) (d : Dom) (hex : ∃ n ∈ d, n.id = p)
    (hne : ch.id ≠ p) :
    ∃ cs rest, childrenAt d p = cs :: rest ∧
      childrenAt (prepend c p ch d) p = (ch.id :: cs) :: rest := by
  rcases prepend_eq c p ch d with ⟨_, hall⟩ | ⟨l1, n0, l2, hd, hn0, hl1, he⟩
  · obtain ⟨n, hn, hp⟩ := hex
    exact absurd hp (hall n hn)
  · have h1 : l1.filter (fun n => n.id == p) = [] := by
      rw [List.filter_eq_nil_iff]
      intro n hn
      simpa using hl1 n hn
    refine ⟨n0.children, (l2.filter (fun n => n.id == p)).map (fun n => n.children), ?_, ?_⟩
    · rw [hd]
      simp [childrenAt, List.filter_append, List.filter_cons, h1, hn0]
    · rw [he]
      simp [childrenAt, List.filter_append, List.filter_cons, h1, hn0, hne]

theorem childrenAt_prepend_other (c p : Nat) (ch : Node) (d : Dom) (id : Nat) (h1 : id ≠ p)
    (h2 : id ≠ ch.id) : childrenAt (prepend c p ch d) id = childrenAt d id := by
  rcases prepend_eq c p ch d with ⟨he, _⟩ | ⟨l1, n0, l2, hd, hn0, _, he⟩
  · rw [he]
  · rw [he, hd]
    have h3 : ¬ n0.id = id := fun h => h1 (by rw [← h, hn0])
    have h4 : ¬ ch.id = id := fun h => h2 h.symm
    simp [childrenAt, List.filter_append, List.filter_cons, h3, h4]

theorem toggle_mem_prepend (c p : Nat) (ch : Node) (d : Dom) (hex : ∃ n ∈ d, n.id = p) :
    ∃ b, { ch with underContainer := b } ∈ prepend c p ch d := by
  rcases prepend_eq c p ch d with ⟨_, hall⟩ | ⟨l1, n0, l2, _, _, _, he⟩
  · obtain ⟨n, hn, hp⟩ := hex
    exact absurd hp (hall n hn)
  · refine ⟨n0.underContainer || n0.id == c, ?_⟩
    rw [he]
    exact List.mem_append_right _ (List.mem_cons_of_mem _ (List.mem_cons_self _ _))

theorem locatedIn_prepend_length (m : Engine) (sels : Selectors) (c0 c p : Nat)
    (ch : Node) (d : Dom) (name : String) :
    (locatedIn m sels c0 (prepend c p ch d) name).length
      ≤ (locatedIn m sels c0 d name).length + 1 := by
  rcases prepend_eq c p ch d with ⟨he, _⟩ | ⟨l1, n0, l2, hd, _, _, he⟩
  · rw [he]; omega
  · rw [he, hd]
    rw [locatedIn_eq, locatedIn_eq]
    cases sels.get name with
    | none => simp
    | some s =>
      cases s with
      | none => simp [collectionOf]
      | some sel =>
        by_cases hs : sel = ""
        · simp [collectionOf, hs]
        · simp only [collectionOf, hs, if_false, List.filter_append, List.filter_cons,
            List.map_append, List.length_append, List.length_map]
          split <;> split <;> simp <;> omega

theorem mem_jqShow_of_mem (ids : List Nat) {d : Dom} {n1 : Node} (h : n1 ∈ d) :
    ∃ n ∈ jqShow ids d, n.id = n1.id ∧ n.ariaPressed = n1.ariaPressed
      ∧ n.visibility = n1.visibility := by
  refine ⟨if n1.id ∈ ids then { n1 with displayNone := false } else n1, ?_, ?_⟩
  · simp only [jqShow, List.mem_map]
    exact ⟨n1, h, rfl⟩
  · split <;> simp

theorem content_ne_nil_of_head {t : Component} {first : Nat}
    (h : t.content.head? = some first) : t.content ≠ [] := by
  intro hn
  rw [hn] at h
  cases h

theorem first_mem_activated (m : Engine) (t : Component) (first : Nat)
    (h : ∃ n ∈ t.dom, n.id = first) : ∃ n ∈ activated m t, n.id = first := by
  obtain ⟨n, hn, hid⟩ := h
  rw [activated_eq]
  exact ⟨_, List.mem_map.2 ⟨n, hn, rfl⟩, hid⟩

theorem childrenAt_activated (m : Engine) (t : Component) (id : Nat) :
    childrenAt (activated m t) id = childrenAt t.dom id := by
  simp [activated]

theorem length_activated (m : Engine) (t : Component) :
    (activated m t).length = t.dom.length := by
  simp [activated]

theorem locatedIn_activated (m : Engine) (t : Component) :
    locatedIn m t.options.selectors t.container (activated m t) = located m t := by
  simp [activated, located_fn]

/-! ### `toggleNav` unfolded -/

theorem toggleNav_eq (m : Engine) (t : Component) (state : Bool) :
    toggleNav m t state =
      .ok { t with
        dom := attrAriaPressed (located m t "navToggle") state
          (css t.nav (if (state && t.model.simplify) = true then "visible" else "") t.dom) } := by
  unfold toggleNav
  rw [locate_navToggle]
  by_cases h : (state && t.model.simplify) = true
  · simp only [h, if_true]
  · simp [h]

theorem toggleNav_that (m : Engine) (t : Component) (state : Bool) :
    (toggleNav m t state).that =
      { t with
        dom := attrAriaPressed (located m t "navToggle") state
          (css t.nav (if (state && t.model.simplify) = true then "visible" else "") t.dom) } := by
  rw [toggleNav_eq]
  rfl

theorem mem_attrAriaPressed {ids : List Nat} {v : Bool} {d : Dom} {n : Node}
    (h : n ∈ attrAriaPressed ids v d) :
    ∃ n1 ∈ d, n.id = n1.id ∧ n.visibility = n1.visibility ∧ n.displayNone = n1.displayNone := by
  simp only [attrAriaPressed, List.mem_map] at h
  obtain ⟨n1, hn1, rfl⟩ := h
  refine ⟨n1, hn1, ?_⟩
  split <;> simp

theorem ariaPressed_of_mem_attrAriaPressed {ids : List Nat} {v : Bool} {d : Dom} {n : Node}
    (h : n ∈ attrAriaPressed ids v d) (hid : n.id ∈ ids) : n.ariaPressed = some v := by
  simp only [attrAriaPressed, List.mem_map] at h
  obtain ⟨n0, _, rfl⟩ := h
  by_cases h0 : n0.id ∈ ids
  · simp [h0]
  · simp only [h0, if_false] at hid

theorem visibility_nav_toggleNav {m : Engine} {t : Component} {state : Bool} {n : Node}
    (h : n ∈ (toggleNav m t state).that.dom) (hid : n.id ∈ t.nav) :
    n.visibility = if (state && t.model.simplify) = true then "visible" else "" := by
  rw [toggleNav_that] at h
  obtain ⟨n1, hn1, h1, h2, _⟩ := mem_attrAriaPressed h
  rw [h2]
  exact visibility_of_mem_css hn1 (h1 ▸ hid)

theorem alwaysVisibleNow_congr (m : Engine) (t t1 : Component) (ho : t1.options = t.options)
    (hc : t1.container = t.container) (hd : t1.dom.map staticKey = t.dom.map staticKey) :
    alwaysVisibleNow m t1 = alwaysVisibleNow m t := by
  unfold alwaysVisibleNow
  rw [located_eq_of m t t1 ho hc hd, ho]

theorem set_fields (m : Engine) (t : Component) (state : Bool) :
    (set m t state).that.options = t.options ∧ (set m t state).that.model = t.model ∧
    (set m t state).that.container = t.container ∧ (set m t state).that.content = t.content ∧
    (set m t state).that.nav = t.nav ∧ (set m t state).that.fired = t.fired := by
  by_cases h : t.content = []
  · rw [set_of_empty m t state h]
    simp [that_ok, that_error]
  · cases ha : allEntries t.options <;> cases state
    · rw [set_false_raise m t h ha]; simp [that_ok, that_error]
    · rw [set_true_raise m t h ha]; simp [that_ok, that_error]
    · rw [set_false_eq m t h ha]; simp [that_ok, that_error]
    · rw [set_true_eq m t h ha]; simp [that_ok, that_error]

theorem set_true_fields (m : Engine) (t : Component) :
    (set m t true).that.options = t.options ∧ (set m t true).that.model = t.model ∧
    (set m t true).that.container = t.container ∧ (set m t true).that.content = t.content ∧
    (set m t true).that.nav = t.nav ∧ (set m t true).that.fired = t.fired :=
  set_fields m t true

theorem toggleNav_fields (m : Engine) (t : Component) (state : Bool) :
    (toggleNav m t state).that.options = t.options ∧
    (toggleNav m t state).that.model = t.model ∧
    (toggleNav m t state).that.container = t.container ∧
    (toggleNav m t state).that.content = t.content ∧
    (toggleNav m t state).that.nav = t.nav ∧
    (toggleNav m t state).that.observer = t.observer ∧
    (toggleNav m t state).that.dom.map staticKey = t.dom.map staticKey := by
  rw [toggleNav_that]
  simp [staticKey_attrAriaPressed, staticKey_css]

theorem mem_css {ids : List Nat} {v : String} {d : Dom} {n : Node} (h : n ∈ css ids v d) :
    ∃ n0 ∈ d, n.id = n0.id ∧ (n.id ∉ ids → n.visibility = n0.visibility) := by
  simp only [css, List.mem_map] at h
  obtain ⟨n0, hn0, rfl⟩ := h
  refine ⟨n0, hn0, ?_⟩
  by_cases h0 : n0.id ∈ ids <;> simp [h0]

theorem reached_subset (m : Engine) (t : Component) {x : Nat}
    (h : x ∈ alwaysVisibleReached m t) : x ∈ alwaysVisibleNow m t := by
  simp only [alwaysVisibleReached, reachedNames, alwaysVisibleNow, List.mem_flatMap] at h ⊢
  obtain ⟨name, hname, hx⟩ := h
  exact ⟨name, (List.takeWhile_sublist _).subset hname, hx⟩

theorem set_true_leaves_nav (m : Engine) (u : Component) (hc : u.content ≠ [])
    (hu : ∀ x ∈ u.dom, x.id ∈ u.nav → x.visibility = "") :
    ∀ n ∈ (set m u true).that.dom, n.id ∈ u.nav → n.id ≠ u.container → n.id ∉ u.content →
      n.id ∉ alwaysVisibleNow m u → n.visibility = "" := by
  intro n hn hnav hcont hcontent hav
  cases ha : allEntries u.options with
  | true =>
    rcases mem_set_true_dom hc ha hn with ⟨n0, hn0, h1, h2, _⟩ | ⟨_, h1, _⟩
    · rw [h2]
      rw [h1] at hnav hcont hcontent hav
      simp only [activatedVisibility, hcont, hcontent, hav, if_false, or_self]
      exact hu n0 hn0 hnav
    · have := nav_lt_freshId u hnav
      omega
  | false =>
    rw [set_true_raise m u hc ha] at hn
    simp only [that_ok, that_error] at hn
    obtain ⟨n1, hn1, h1, h2⟩ := mem_css hn
    obtain ⟨n0, hn0, h3, h4⟩ := mem_css hn1
    rw [h2 (fun h => hav (reached_subset m u h)), h4 (by rw [← h1]; exact hcontent)]
    exact hu n0 hn0 (by rw [← h3, ← h1]; exact hnav)

/-! ### The callback of the watcher -/

theorem find_css (ids : List Nat) (v : String) (d : Dom) (node : Nat) :
    (css ids v d).find? (fun n => n.id == node)
      = (d.find? (fun n => n.id == node)).map
          (fun n => if n.id ∈ ids then { n with visibility := v } else n) := by
  induction d with
  | nil => rfl
  | cons n ns ih =>
    simp only [css, List.map_cons, List.find?_cons] at ih ⊢
    by_cases h1 : n.id ∈ ids <;> by_cases h2 : (n.id == node) = true <;> simp [h1, h2, ih]

theorem nodeMatches_css (m : Engine) (ids : List Nat) (v : String) (d : Dom) (sel : String) :
    nodeMatches m (css ids v d) sel = nodeMatches m d sel := by
  funext node
  unfold nodeMatches
  rw [find_css]
  cases d.find? (fun n => n.id == node) with
  | none => rfl
  | some n =>
    simp only [Option.map_some']
    split <;> rfl

theorem foldl_added (m : Engine) (sel : String) (nodes : List Nat) (t : Component) :
    nodes.foldl (fun t1 node =>
        if nodeMatches m t1.dom sel node then fireAlwaysVisibleNodeAdded t1 node else t1) t
      = { t with
          fired := t.fired ++ nodes.filter (fun node => nodeMatches m t.dom sel node)
          dom := css (nodes.filter (fun node => nodeMatches m t.dom sel node)) "visible" t.dom } := by
  induction nodes generalizing t with
  | nil => simp [css_nil]
  | cons a rest ih =>
    simp only [List.foldl_cons]
    rw [ih]
    by_cases ha : nodeMatches m t.dom sel a = true
    · simp [ha, fireAlwaysVisibleNodeAdded, setVisible, nodeMatches_css, css_css]
    · simp [ha, css_nil]

theorem observerCallback_eq (m : Engine) (selectors : List String) (t : Component)
    (records : List MutationRecord) :
    observerCallback m selectors t records =
      { t with
        fired := t.fired ++ matchingAdded m t.dom (",".intercalate selectors) records
        dom := css (matchingAdded m t.dom (",".intercalate selectors) records) "visible" t.dom } := by
  unfold observerCallback matchingAdded
  simp only [foldl_added]
  induction records generalizing t with
  | nil => simp [css_nil]
  | cons r rest ih =>
    simp only [List.foldl_cons]
    rw [ih]
    simp [nodeMatches_css, css_css]

theorem collectSelectors_eq (m : Engine) (o : Options) :
    collectSelectors m o = o.alwaysVisible.filterMap (fluidGet m o.selectors) := by
  unfold collectSelectors
  have key : ∀ (names : List String) (acc : List String),
      names.foldl (fun selectors selectorName =>
        match fluidGet m o.selectors selectorName with
        | some selector => selectors ++ [selector]
        | none => selectors) acc
      = acc ++ names.filterMap (fluidGet m o.selectors) := by
    intro names
    induction names with
    | nil => simp
    | cons a rest ih =>
      intro acc
      simp only [List.foldl_cons, List.filterMap_cons]
      rw [ih]
      cases fluidGet m o.selectors a <;> simp
  simpa using key o.alwaysVisible []

theorem intercalate_collectSelectors (m : Engine) (o : Options) :
    ",".intercalate (collectSelectors m o) = compoundSelector m o := by
  rw [collectSelectors_eq]
  rfl

theorem visibilityAt_css_of_not_mem (ids : List Nat) (v : String) (d : Dom) (id : Nat)
    (h : id ∉ ids) : visibilityAt (css ids v d) id = visibilityAt d id := by
  induction d with
  | nil => rfl
  | cons n ns ih =>
    simp only [visibilityAt, css, List.map_cons, List.filter_cons] at ih ⊢
    by_cases h2 : n.id = id
    · subst h2
      simp [h, ih]
    · by_cases h1 : n.id ∈ ids <;> simp [h1, h2, ih]

/-! ### Activation twice -/

theorem css_jqShow_comm (ids shown : List Nat) (v : String) (d : Dom) :
    css ids v (jqShow shown d) = jqShow shown (css ids v d) := by
  simp only [css, jqShow, List.map_map]
  apply List.map_congr_left
  intro n _
  simp only [Function.comp]
  by_cases h1 : n.id ∈ ids <;> by_cases h2 : n.id ∈ shown <;> simp [h1, h2]

theorem jqShow_jqShow (shown : List Nat) (d : Dom) :
    jqShow shown (jqShow shown d) = jqShow shown d := by
  simp only [jqShow, List.map_map]
  apply List.map_congr_left
  intro n _
  simp only [Function.comp]
  by_cases h2 : n.id ∈ shown <;> simp [h2]

theorem activation_idem (c : Nat) (content av : List Nat) (d : Dom) :
    css [c] "hidden" (css av "visible" (css content "visible"
      (css [c] "hidden" (css av "visible" (css content "visible" d)))))
      = css [c] "hidden" (css av "visible" (css content "visible" d)) := by
  simp only [css_eq_map, List.map_map]
  apply List.map_congr_left
  intro n _
  simp only [Function.comp, List.mem_singleton]
  by_cases h1 : n.id ∈ content <;> by_cases h2 : n.id ∈ av <;> by_cases h3 : n.id = c <;>
    simp [h1, h2, h3]

theorem css_prepend_comm (ids : List Nat) (v : String) (c p : Nat) (ch : Node) (d : Dom)
    (h : ch.id ∉ ids) :
    css ids v (prepend c p ch d) = prepend c p ch (css ids v d) := by
  induction d with
  | nil => rfl
  | cons n ns ih =>
    by_cases hp : n.id = p
    · by_cases hn : n.id ∈ ids
      · have hpi : p ∈ ids := hp ▸ hn
        simp [prepend, css, hp, hpi, h]
      · have hpi : p ∉ ids := hp ▸ hn
        simp [prepend, css, hp, hpi, h]
    · by_cases hn : n.id ∈ ids
      · simp only [css, List.map_cons] at ih ⊢
        simp [prepend, hp, hn, ih]
      · simp only [css, List.map_cons] at ih ⊢
        simp [prepend, hp, hn, ih]

theorem afterInjection_activation (m : Engine) (t : Component) :
    css [t.container] "hidden" (css (alwaysVisibleNow m t) "visible"
      (css t.content "visible" (afterInjection m t))) = afterInjection m t := by
  have hact := activation_idem t.container t.content (alwaysVisibleNow m t) t.dom
  cases hi : injects m t with
  | false =>
    rw [afterInjection_of_not m t hi]
    exact hact
  | true =>
    cases hf : t.content.head? with
    | none =>
      simp only [afterInjection, hi, hf, if_true]
      exact hact
    | some first =>
      rw [afterInjection_of_injects m t hi first hf]
      have h1 : (newToggle t).id ∉ t.content := fun h =>
        Nat.lt_irrefl (freshId t) (content_lt_freshId t h)
      have h2 : (newToggle t).id ∉ alwaysVisibleNow m t := fun h =>
        Nat.lt_irrefl (freshId t) (alwaysVisibleNow_lt_freshId m t h)
      have h3 : (newToggle t).id ∉ [t.container] := fun h => by
        have hlt := container_lt_freshId t
        simp only [List.mem_singleton, newToggle] at h
        omega
      rw [css_prepend_comm _ _ _ _ _ _ h1, css_prepend_comm _ _ _ _ _ _ h2,
        css_prepend_comm _ _ _ _ _ _ h3]
      exact congrArg _ hact

theorem observe_observe (o : Observer) (target : Nat) (config : ObserveConfig) :
    (o.observe target config).observe target config = o.observe target config := by
  have hany : (o.observe target config).registered.any (fun r => r.1 == target) = true := by
    simp only [List.any_eq_true, beq_iff_eq]
    exact ⟨_, mem_observe o target config, rfl⟩
  have hall : ∀ r ∈ (o.observe target config).registered, r.1 = target → r = (target, config) := by
    intro r hr hrt
    unfold Observer.observe at hr
    split at hr
    · simp only [List.mem_map] at hr
      obtain ⟨r0, _, h0⟩ := hr
      by_cases h1 : r0.1 = target
      · simp only [h1, if_true] at h0
        exact h0.symm
      · simp only [h1, if_false] at h0
        subst h0
        exact absurd hrt h1
    · rename_i hno
      simp only [List.mem_append, List.mem_singleton] at hr
      rcases hr with hr | hr
      · exfalso
        apply hno
        simp only [List.any_eq_true, beq_iff_eq]
        exact ⟨r, hr, hrt⟩
      · exact hr
  have hmap : (o.observe target config).registered.map
      (fun r => if r.1 = target then (target, config) else r)
      = (o.observe target config).registered := by
    conv_rhs => rw [← List.map_id (o.observe target config).registered]
    apply List.map_congr_left
    intro r hr
    by_cases h1 : r.1 = target
    · simp [h1, hall r hr h1]
    · simp [h1]
  have key : ∀ o1 : Observer, o1.registered.any (fun r => r.1 == target) = true →
      o1.registered.map (fun r => if r.1 = target then (target, config) else r) = o1.registered →
      o1.observe target config = o1 := by
    intro o1 h1 h2
    unfold Observer.observe
    rw [if_pos h1, h2]
  exact key _ hany hmap

theorem set_true_fixed (m : Engine) (u : Component) (hc : u.content ≠ [])
    (ha : allEntries u.options = true) (o : Observer)
    (ho : u.observer = some o)
    (hobs : o.observe u.container { attributes := false, childList := true, subtree := true } = o)
    (hA : afterInjection m u = u.dom)
    (hshow : jqShow (locatedIn m u.options.selectors u.container u.dom "navToggle") u.dom = u.dom) :
    set m u true = .ok u := by
  rw [set_true_eq m u hc ha, ensureObserver_of_some m u o ho, hA, hshow, ho]
  cases u
  simp_all

theorem staticKey_set_true_of_not (m : Engine) (t : Component) (hc : t.content ≠ [])
    (ha : allEntries t.options = true) (hi : injects m t = false) :
    (set m t true).that.dom.map staticKey = t.dom.map staticKey := by
  rw [set_true_dom m t hc ha, afterInjection_of_not m t hi, staticKey_jqShow, staticKey_activated]

/-! ### What the selectors locate once a toggle is injected -/

theorem mem_collectionOf_prepend {m : Engine} {c0 c p : Nat} {ch : Node} {d : Dom}
    {s : Option String} {x : Nat} (h : x ∈ collectionOf m c0 (prepend c p ch d) s) :
    x ∈ collectionOf m c0 d s ∨ x = ch.id := by
  rcases prepend_eq c p ch d with ⟨he, _⟩ | ⟨l1, n0, l2, hd, _, _, he⟩
  · rw [he] at h
    exact Or.inl h
  · rw [he] at h
    rw [hd]
    cases s with
    | none => simp [collectionOf] at h
    | some sel =>
      simp only [collectionOf] at h ⊢
      by_cases hs : sel = ""
      · simp only [hs, if_true] at h ⊢
        exact Or.inl h
      · simp only [hs, if_false, List.mem_map, List.mem_filter, List.mem_append,
          List.mem_cons] at h ⊢
        obtain ⟨n, ⟨hn, hpred⟩, rfl⟩ := h
        rcases hn with hn | rfl | rfl | hn
        · exact Or.inl ⟨n, ⟨Or.inl hn, hpred⟩, rfl⟩
        · exact Or.inl ⟨n0, ⟨Or.inr (Or.inl rfl), hpred⟩, rfl⟩
        · exact Or.inr rfl
        · exact Or.inl ⟨n, ⟨Or.inr (Or.inr hn), hpred⟩, rfl⟩

theorem mem_locatedIn_prepend {m : Engine} {sels : Selectors} {c0 c p : Nat}
    {ch : Node} {d : Dom} {name : String} {x : Nat}
    (h : x ∈ locatedIn m sels c0 (prepend c p ch d) name) :
    x ∈ locatedIn m sels c0 d name ∨ x = ch.id := by
  rw [locatedIn_eq] at h ⊢
  cases hl : sels.get name with
  | none => simp [hl] at h
  | some s =>
    simp only [hl] at h ⊢
    exact mem_collectionOf_prepend h

theorem mem_collectionOf_prepend_of_mem {m : Engine} {c0 c p : Nat} {ch : Node} {d : Dom}
    {s : Option String} {x : Nat} (h : x ∈ collectionOf m c0 d s) :
    x ∈ collectionOf m c0 (prepend c p ch d) s := by
  rcases prepend_eq c p ch d with ⟨he, _⟩ | ⟨l1, n0, l2, hd, _, _, he⟩
  · rw [he]
    exact h
  · rw [he]
    rw [hd] at h
    cases s with
    | none => simp [collectionOf] at h
    | some sel =>
      simp only [collectionOf] at h ⊢
      by_cases hs : sel = ""
      · simp only [hs, if_true] at h ⊢
        exact h
      · simp only [hs, if_false, List.mem_map, List.mem_filter, List.mem_append,
          List.mem_cons] at h ⊢
        obtain ⟨n, ⟨hn, hpred⟩, rfl⟩ := h
        rcases hn with hn | rfl | hn
        · exact ⟨n, ⟨Or.inl hn, hpred⟩, rfl⟩
        · exact ⟨{ n with children := ch.id :: n.children }, ⟨Or.inr (Or.inl rfl), hpred⟩, rfl⟩
        · exact ⟨n, ⟨Or.inr (Or.inr (Or.inr hn)), hpred⟩, rfl⟩

theorem mem_locatedIn_prepend_of_mem {m : Engine} {sels : Selectors} {c0 c p : Nat}
    {ch : Node} {d : Dom} {name : String} {x : Nat}
    (h : x ∈ locatedIn m sels c0 d name) :
    x ∈ locatedIn m sels c0 (prepend c p ch d) name := by
  rw [locatedIn_eq] at h ⊢
  cases hl : sels.get name with
  | none => simp [hl] at h
  | some s =>
    simp only [hl] at h ⊢
    exact mem_collectionOf_prepend_of_mem h

theorem mem_located_set_true {m : Engine} {t : Component} (hc : t.content ≠ [])
    (ha : allEntries t.options = true) {name : String}
    {x : Nat} (h : x ∈ located m (set m t true).that name) :
    x ∈ located m t name ∨ x = freshId t := by
  rw [located_set_true m t hc ha] at h
  cases hi : injects m t with
  | false =>
    rw [afterInjection_of_not m t hi, locatedIn_activated] at h
    exact Or.inl h
  | true =>
    cases hf : t.content.head? with
    | none =>
      simp only [afterInjection, hi, hf, if_true] at h
      rw [locatedIn_activated] at h
      exact Or.inl h
    | some first =>
      rw [afterInjection_of_injects m t hi first hf] at h
      rcases mem_locatedIn_prepend h with h1 | h1
      · rw [locatedIn_activated] at h1
        exact Or.inl h1
      · exact Or.inr h1

theorem mem_located_set_true_of_mem {m : Engine} {t : Component} (hc : t.content ≠ [])
    (ha : allEntries t.options = true) {name : String} {x : Nat} (h : x ∈ located m t name) :
    x ∈ located m (set m t true).that name := by
  rw [located_set_true m t hc ha]
  rw [← locatedIn_activated] at h
  cases hi : injects m t with
  | false =>
    rw [afterInjection_of_not m t hi]
    exact h
  | true =>
    cases hf : t.content.head? with
    | none =>
      simp only [afterInjection, hi, hf, if_true]
      exact h
    | some first =>
      rw [afterInjection_of_injects m t hi first hf]
      exact mem_locatedIn_prepend_of_mem h

theorem mem_alwaysVisibleNow_set_true {m : Engine} {t : Component} (hc : t.content ≠ [])
    (ha : allEntries t.options = true)
    {x : Nat} (h : x ∈ alwaysVisibleNow m (set m t true).that) :
    x ∈ alwaysVisibleNow m t ∨ x = freshId t := by
  simp only [alwaysVisibleNow, List.mem_flatMap, (set_true_fields m t).1] at h ⊢
  obtain ⟨name, hname, hx⟩ := h
  rcases mem_located_set_true hc ha hx with h1 | h1
  · exact Or.inl ⟨name, hname, h1⟩
  · exact Or.inr h1

theorem mem_alwaysVisibleNow_set_true_of_mem {m : Engine} {t : Component} (hc : t.content ≠ [])
    (ha : allEntries t.options = true)
    {x : Nat} (h : x ∈ alwaysVisibleNow m t) : x ∈ alwaysVisibleNow m (set m t true).that := by
  simp only [alwaysVisibleNow, List.mem_flatMap, (set_true_fields m t).1] at h ⊢
  obtain ⟨name, hname, hx⟩ := h
  exact ⟨name, hname, mem_located_set_true_of_mem hc ha hx⟩

/-! ### The inline visibility carried by an identifier -/

@[simp] theorem visibilityAt_jqShow (ids : List Nat) (d : Dom) (id : Nat) :
    visibilityAt (jqShow ids d) id = visibilityAt d id := by
  induction d with
  | nil => rfl
  | cons n ns ih =>
    simp only [visibilityAt, jqShow, List.map_cons, List.filter_cons] at ih ⊢
    by_cases h1 : n.id ∈ ids <;> by_cases h2 : (n.id == id) = true <;> simp [h1, h2, ih]

@[simp] theorem visibilityAt_jqHide (ids : List Nat) (d : Dom) (id : Nat) :
    visibilityAt (jqHide ids d) id = visibilityAt d id := by
  induction d with
  | nil => rfl
  | cons n ns ih =>
    simp only [visibilityAt, jqHide, List.map_cons, List.filter_cons] at ih ⊢
    by_cases h1 : n.id ∈ ids <;> by_cases h2 : (n.id == id) = true <;> simp [h1, h2, ih]

theorem visibilityAt_css_of_mem (ids : List Nat) (v : String) (d : Dom) (id : Nat)
    (h : id ∈ ids) :
    visibilityAt (css ids v d) id = List.replicate (visibilityAt d id).length v := by
  induction d with
  | nil => rfl
  | cons n ns ih =>
    simp only [visibilityAt, css, List.map_cons, List.filter_cons] at ih ⊢
    by_cases h2 : n.id = id
    · subst h2
      simp [h, ih, List.replicate_succ]
    · by_cases h1 : n.id ∈ ids <;> simp [h1, h2, ih]

theorem length_visibilityAt_css (ids : List Nat) (v : String) (d : Dom) (id : Nat) :
    (visibilityAt (css ids v d) id).length = (visibilityAt d id).length := by
  by_cases h : id ∈ ids
  · rw [visibilityAt_css_of_mem _ _ _ _ h, List.length_replicate]
  · rw [visibilityAt_css_of_not_mem _ _ _ _ h]

theorem visibilityAt_eq_replicate (d : Dom) (id : Nat) (v : String)
    (h : ∀ n ∈ d, n.id = id → n.visibility = v) :
    visibilityAt d id = List.replicate (visibilityAt d id).length v := by
  rw [List.eq_replicate_iff]
  refine ⟨rfl, ?_⟩
  intro b hb
  simp only [visibilityAt, List.mem_map, List.mem_filter, beq_iff_eq] at hb
  obtain ⟨n, ⟨hn, hid⟩, rfl⟩ := hb
  exact h n hn hid

theorem visibilityAt_prepend_other (c p : Nat) (ch : Node) (d : Dom) (id : Nat)
    (h2 : id ≠ ch.id) : visibilityAt (prepend c p ch d) id = visibilityAt d id := by
  rcases prepend_eq c p ch d with ⟨he, _⟩ | ⟨l1, n0, l2, hd, _, _, he⟩
  · rw [he]
  · rw [he, hd]
    have h4 : ¬ ch.id = id := fun h => h2 h.symm
    by_cases h3 : n0.id = id <;>
      simp [visibilityAt, List.filter_append, List.filter_cons, h3, h4]

theorem visibilityAt_afterInjection (m : Engine) (t : Component) (id : Nat)
    (h : id ≠ freshId t) :
    visibilityAt (afterInjection m t) id = visibilityAt (activated m t) id := by
  cases hi : injects m t with
  | false => rw [afterInjection_of_not m t hi]
  | true =>
    cases hf : t.content.head? with
    | none => simp only [afterInjection, hi, hf, if_true]
    | some first =>
      rw [afterInjection_of_injects m t hi first hf]
      exact visibilityAt_prepend_other _ _ _ _ _ h

theorem exists_of_visibilityAt_length {d : Dom} {id : Nat}
    (h : 0 < (visibilityAt d id).length) : ∃ n ∈ d, n.id = id := by
  obtain ⟨v, hv⟩ := List.exists_mem_of_length_pos h
  simp only [visibilityAt, List.mem_map, List.mem_filter, beq_iff_eq] at hv
  obtain ⟨n, ⟨hn, hid⟩, _⟩ := hv
  exact ⟨n, hn, hid⟩

theorem visibilityAt_length_pos {d : Dom} {n : Node} (h : n ∈ d) :
    0 < (visibilityAt d n.id).length := by
  apply List.length_pos_of_mem (a := n.visibility)
  simp only [visibilityAt, List.mem_map, List.mem_filter, beq_iff_eq]
  exact ⟨n, ⟨h, rfl⟩, rfl⟩

theorem node_kept_by_set_true (m : Engine) (t : Component) (hc : t.content ≠ [])
    (ha : allEntries t.options = true) {n0 : Node}
    (hn0 : n0 ∈ t.dom) : ∃ n ∈ (set m t true).that.dom, n.id = n0.id := by
  apply exists_of_visibilityAt_length
  have hne : n0.id ≠ freshId t := Nat.ne_of_lt (node_lt_freshId t hn0)
  rw [set_true_dom m t hc ha, visibilityAt_jqShow, visibilityAt_afterInjection m t _ hne]
  unfold activated
  rw [length_visibilityAt_css, length_visibilityAt_css, length_visibilityAt_css]
  exact visibilityAt_length_pos hn0

/-! ### When the injected toggle is found again -/

theorem locatedIn_prepend_ne_nil (m : Engine) (sels : Selectors) (c p : Nat)
    (ch : Node) (d : Dom) (sel : String) (hsel : sels.navToggle = some sel)
    (hne : sel ≠ "") (hex : ∃ n ∈ d, n.id = p)
    (hatt : ∀ n ∈ d, n.id = p → n.underContainer = true ∨ p = c)
    (hid : ch.id ≠ c) (hel : ch.isElement = true) (hm : m.elementMatches sel ch.attrs = true) :
    locatedIn m sels c (prepend c p ch d) "navToggle" ≠ [] := by
  rcases prepend_eq c p ch d with ⟨_, hall⟩ | ⟨l1, n0, l2, hd, hn0, _, he⟩
  · obtain ⟨n, hn, hp⟩ := hex
    exact absurd hp (hall n hn)
  · have hflag : (n0.underContainer || n0.id == c) = true := by
      rcases hatt n0 (by simp [hd]) hn0 with h | h
      · simp [h]
      · simp [hn0, h]
    have hget : sels.get "navToggle" = some (some sel) := by
      simp [Selectors.get, hsel]
    have hmem : ch.id ∈ locatedIn m sels c (prepend c p ch d) "navToggle" := by
      rw [he, locatedIn_eq]
      simp only [hget, collectionOf, hne, if_false, List.mem_map, List.mem_filter,
        List.mem_append, List.mem_cons]
      refine ⟨{ ch with underContainer := n0.underContainer || n0.id == c },
        ⟨Or.inr (Or.inr (Or.inl rfl)), ?_⟩, rfl⟩
      simp [hflag, hel, hm, hid]
    intro hnil
    rw [hnil] at hmem
    cases hmem

theorem locatedIn_prepend_of_no_match (m : Engine) (sels : Selectors) (c0 c p : Nat)
    (ch : Node) (d : Dom) (name : String)
    (hno : ∀ sel, sels.get name = some (some sel) → sel ≠ "" →
      m.elementMatches sel ch.attrs = false) :
    locatedIn m sels c0 (prepend c p ch d) name = locatedIn m sels c0 d name := by
  rcases prepend_eq c p ch d with ⟨he, _⟩ | ⟨l1, n0, l2, hd, _, _, he⟩
  · rw [he]
  · rw [he, hd, locatedIn_eq, locatedIn_eq]
    cases hl : sels.get name with
    | none => rfl
    | some s =>
      cases s with
      | none => rfl
      | some sel =>
        by_cases hs : sel = ""
        · simp [collectionOf, hs]
        · have hch := hno sel hl hs
          simp only [collectionOf, hs, if_false, List.filter_append, List.filter_cons, hch,
            Bool.and_false, Bool.false_eq_true, List.map_append]
          split <;> simp

theorem toggle_located_of_config (m : Engine) (that : Component) (first : Nat) (sel : String)
    (ha : allEntries that.options = true)
    (hfirst : that.content.head? = some first) (hstore : ∃ n ∈ that.dom, n.id = first)
    (hatt : ∀ n ∈ that.dom, n.id = first → n.underContainer = true ∨ first = that.container)
    (hsel : that.options.selectors.navToggle = some sel)
    (hm : m.elementMatches sel (newToggle that).attrs = true) :
    injects m that = true → located m (set m that true).that "navToggle" ≠ [] := by
  intro hi
  have hc := content_ne_nil_of_head hfirst
  have hne : sel ≠ "" := by
    intro h
    have hl : located m that "navToggle" = [that.container] := by
      simp [located, locatedIn_eq, Selectors.get, collectionOf, hsel, h]
    rw [injects_iff, hl] at hi
    exact absurd hi.2.1 (by simp)
  rw [located_set_true m that hc ha, afterInjection_of_injects m that hi first hfirst]
  apply locatedIn_prepend_ne_nil m _ _ _ _ _ sel hsel hne (first_mem_activated m that first hstore)
  · intro n hn hid
    rw [activated_eq, List.mem_map] at hn
    obtain ⟨n1, hn1, rfl⟩ := hn
    exact hatt n1 hn1 hid
  · exact Nat.ne_of_gt (container_lt_freshId that)
  · rfl
  · exact hm

theorem alwaysVisible_unchanged_of_config (m : Engine) (that : Component)
    (ha : allEntries that.options = true)
    (hno : ∀ name ∈ that.options.alwaysVisible, ∀ sel,
      that.options.selectors.get name = some (some sel) → sel ≠ "" →
        m.elementMatches sel (newToggle that).attrs = false) :
    alwaysVisibleNow m (set m that true).that = alwaysVisibleNow m that := by
  by_cases hc : that.content = []
  · rw [set_of_empty m that true hc]
    simp only [that_ok, that_error]
    rw [alwaysVisibleNow_ensureObserver]
  · unfold alwaysVisibleNow
    rw [(set_true_fields m that).1, located_set_true m that hc ha]
    apply List.flatMap_congr
    intro name hname
    cases hi : injects m that with
    | false => rw [afterInjection_of_not m that hi, locatedIn_activated]
    | true =>
      cases hf : that.content.head? with
      | none =>
        simp only [afterInjection, hi, hf, if_true]
        rw [locatedIn_activated]
      | some first =>
        rw [afterInjection_of_injects m that hi first hf,
          locatedIn_prepend_of_no_match m _ _ _ _ _ _ name (hno name hname), locatedIn_activated]

/-! ### The empty content region -/

/-- C9: when the content region is empty, `gpii.simplify.set(that, state)`
returns, and changes no node of the page and no registration of the watcher,
for either value of `state`; the only effect it can have is the lazy
construction of `that.observer`, which a component that already has one does
not see. -/
theorem set_without_content (m : Engine) (that : Component) (state : Bool)
    (h : that.content = []) :
    (∀ o, that.observer = some o → set m that state = .ok that) ∧
    (that.observer = none → set m that state =
      .ok { that with
        observer := some
          { serial := that.observersBuilt, selectors := collectSelectors m that.options
            registered := [] }
        observersBuilt := that.observersBuilt + 1 }) ∧
    (set m that state).that.dom = that.dom ∧
    registrations (set m that state).that = registrations that := by
  rw [set_of_empty m that state h]
  refine ⟨fun o ho => by rw [ensureObserver_of_some m that o ho], fun hn => ?_,
    by simp [that_ok, that_error], ?_⟩
  · unfold ensureObserver
    rw [hn]
  · unfold registrations
    simp only [that_ok, that_error]
    cases ho : that.observer with
    | none => simp [ensureObserver, ho]
    | some o => rw [ensureObserver_of_some m that o ho, ho]

theorem set_without_content_witness :
    demoNoContent.content = [] ∧
    (∀ o, demoNoContent.observer = some o →
      set cssDefault demoNoContent true = .ok demoNoContent) ∧
    (demoNoContent.observer = none → set cssDefault demoNoContent true =
      .ok { demoNoContent with
        observer := some
          { serial := demoNoContent.observersBuilt
            selectors := collectSelectors cssDefault demoNoContent.options
            registered := [] }
        observersBuilt := demoNoContent.observersBuilt + 1 }) ∧
    (set cssDefault demoNoContent true).that.dom = demoNoContent.dom ∧
    registrations (set cssDefault demoNoContent true).that = registrations demoNoContent :=
  ⟨rfl, set_without_content cssDefault demoNoContent true rfl⟩

/-! ### Activation and deactivation -/

theorem alwaysVisibleReached_congr (m : Engine) (t t1 : Component) (ho : t1.options = t.options)
    (hc : t1.container = t.container) (hd : t1.dom.map staticKey = t.dom.map staticKey) :
    alwaysVisibleReached m t1 = alwaysVisibleReached m t := by
  unfold alwaysVisibleReached
  rw [located_eq_of m t t1 ho hc hd, ho]

theorem mem_jqHide {ids : List Nat} {d : Dom} {n : Node} (h : n ∈ jqHide ids d) :
    ∃ n0 ∈ d, n.id = n0.id ∧ n.visibility = n0.visibility := by
  simp only [jqHide, List.mem_map] at h
  obtain ⟨n0, hn0, rfl⟩ := h
  refine ⟨n0, hn0, ?_⟩
  split <;> simp

theorem registrations_ensureObserver (m : Engine) (t : Component) :
    registrations (ensureObserver m t) = registrations t := by
  unfold registrations
  cases ho : t.observer with
  | none => simp [ensureObserver, ho]
  | some o => rw [ensureObserver_of_some m t o ho, ho]

/-- A component whose options name an always visible selector without entry
never has its watcher registered: no call of `set` gets as far as `observe`.
The property holds of a component as created (no watcher yet) and every call
of `set` keeps it. -/
theorem set_keeps_unregistered (m : Engine) (t : Component) (state : Bool)
    (h : allEntries t.options = false → registrations t = []) :
    allEntries (set m t state).that.options = false →
      registrations (set m t state).that = [] := by
  intro ha1
  rw [(set_fields m t state).1] at ha1
  have hr := h ha1
  by_cases hc : t.content = []
  · rw [set_of_empty m t state hc]
    simp only [that_ok, that_error]
    rw [registrations_ensureObserver, hr]
  · have he := registrations_ensureObserver m t
    unfold registrations at he hr ⊢
    cases state
    · rw [set_false_raise m t hc ha1]
      simp only [that_ok, that_error]
      rw [he, hr]
    · rw [set_true_raise m t hc ha1]
      simp only [that_ok, that_error]
      rw [he, hr]

theorem set_true_false_dom (m : Engine) (t : Component) (hc : t.content ≠ [])
    (ha : allEntries t.options = true) :
    (set m (set m t true).that false).that.dom =
      css ([t.container] ++ t.content ++ alwaysVisibleNow m (set m t true).that) ""
        (jqHide (located m (set m t true).that "navToggle") (set m t true).that.dom) := by
  have hf := set_true_fields m t
  have hc1 : (set m t true).that.content ≠ [] := by rw [hf.2.2.2.1]; exact hc
  have ha1 : allEntries (set m t true).that.options = true := by rw [hf.1]; exact ha
  rw [set_false_eq m _ hc1 ha1]
  simp only [that_ok, that_error, ensureObserver_dom]
  simp only [hf.2.2.1, hf.2.2.2.1, css_css]

theorem set_true_false_dom_raise (m : Engine) (t : Component) (hc : t.content ≠ [])
    (ha : allEntries t.options = false) :
    (set m (set m t true).that false).that.dom =
      css ([t.container] ++ t.content ++ alwaysVisibleReached m t) ""
        (jqHide (located m (set m t true).that "navToggle")
          (css (alwaysVisibleReached m t) "visible" (css t.content "visible" t.dom))) := by
  have hf := set_true_fields m t
  have hc1 : (set m t true).that.content ≠ [] := by rw [hf.2.2.2.1]; exact hc
  have ha1 : allEntries (set m t true).that.options = false := by rw [hf.1]; exact ha
  have hd : (set m t true).that.dom
      = css (alwaysVisibleReached m t) "visible" (css t.content "visible" t.dom) := by
    rw [set_true_raise m t hc ha]
    rfl
  have hr : alwaysVisibleReached m (set m t true).that = alwaysVisibleReached m t :=
    alwaysVisibleReached_congr m t _ hf.1 hf.2.2.1 (by rw [hd, staticKey_css, staticKey_css])
  rw [set_false_raise m _ hc1 ha1]
  simp only [that_ok, that_error, ensureObserver_dom]
  simp only [hf.2.2.1, hf.2.2.2.1, css_css, hr, hd]

/-- C2: on a page with a non-empty content region where the inline visibility
of the container, of the content and of the always visible elements is unset,
`set(that, true)` followed by `set(that, false)` leaves the inline visibility
of the container, of the content and of every element that an always visible
name locates unset, gives every node of the page the inline visibility it had
before the activation, and leaves the watcher registered on no target. The
component is one whose watcher has never been registered if an always visible
name has no entry in the selector table, as `set_keeps_unregistered` shows of
every component from its creation on; both calls then raise, and the
statement is about the component they leave behind. -/
theorem set_true_then_false (m : Engine) (that : Component) (hc : that.content ≠ [])
    (hv : ∀ n ∈ that.dom,
      (n.id = that.container ∨ n.id ∈ that.content ∨ n.id ∈ alwaysVisibleNow m that) →
        n.visibility = "")
    (hreg : allEntries that.options = false → registrations that = []) :
    (∀ n ∈ (set m (set m that true).that false).that.dom,
      (n.id = that.container ∨ n.id ∈ that.content
        ∨ n.id ∈ alwaysVisibleNow m (set m (set m that true).that false).that) →
          n.visibility = "") ∧
    (∀ n0 ∈ that.dom,
      visibilityAt (set m (set m that true).that false).that.dom n0.id
        = visibilityAt that.dom n0.id) ∧
    (∃ o, (set m (set m that true).that false).that.observer = some o ∧ o.registered = []) := by
  have hf := set_true_fields m that
  have hg := set_fields m (set m that true).that false
  have hc1 : (set m that true).that.content ≠ [] := by rw [hf.2.2.2.1]; exact hc
  cases ha : allEntries that.options with
  | true =>
    have ha1 : allEntries (set m that true).that.options = true := by rw [hf.1]; exact ha
    have hdom := set_true_false_dom m that hc ha
    refine ⟨?_, ?_, ?_⟩
    · intro n hn hcat
      have hav : alwaysVisibleNow m (set m (set m that true).that false).that
          = alwaysVisibleNow m (set m that true).that := by
        apply alwaysVisibleNow_congr
        · exact hg.1
        · exact hg.2.2.1
        · rw [hdom, staticKey_css, staticKey_jqHide]
      rw [hav] at hcat
      rw [hdom] at hn
      apply visibility_of_mem_css hn
      simp only [List.mem_append, List.mem_singleton]
      rcases hcat with h | h | h
      · exact Or.inl (Or.inl h)
      · exact Or.inl (Or.inr h)
      · exact Or.inr h
    · intro n0 hn0
      have hlt := node_lt_freshId that hn0
      have hne : n0.id ≠ freshId that := Nat.ne_of_lt hlt
      have hA : visibilityAt (set m that true).that.dom n0.id
          = visibilityAt (activated m that) n0.id := by
        rw [set_true_dom m that hc ha, visibilityAt_jqShow,
          visibilityAt_afterInjection m that _ hne]
      rw [hdom]
      by_cases h1 : n0.id ∈ [that.container] ++ that.content
          ++ alwaysVisibleNow m (set m that true).that
      · rw [visibilityAt_css_of_mem _ _ _ _ h1, visibilityAt_jqHide, hA]
        have hlen : (visibilityAt (activated m that) n0.id).length
            = (visibilityAt that.dom n0.id).length := by
          unfold activated
          rw [length_visibilityAt_css, length_visibilityAt_css, length_visibilityAt_css]
        rw [hlen]
        symm
        apply visibilityAt_eq_replicate
        intro n hn hid
        apply hv n hn
        rw [hid]
        simp only [List.mem_append, List.mem_singleton] at h1
        rcases h1 with (h | h) | h
        · exact Or.inl h
        · exact Or.inr (Or.inl h)
        · rcases mem_alwaysVisibleNow_set_true hc ha h with h2 | h2
          · exact Or.inr (Or.inr h2)
          · exact absurd h2 hne
      · rw [visibilityAt_css_of_not_mem _ _ _ _ h1, visibilityAt_jqHide, hA]
        simp only [List.mem_append, List.mem_singleton, not_or] at h1
        obtain ⟨⟨h2, h3⟩, h4⟩ := h1
        have h5 : n0.id ∉ alwaysVisibleNow m that := fun h =>
          h4 (mem_alwaysVisibleNow_set_true_of_mem hc ha h)
        unfold activated
        rw [visibilityAt_css_of_not_mem _ _ _ _ (by simpa using h2),
          visibilityAt_css_of_not_mem _ _ _ _ h5, visibilityAt_css_of_not_mem _ _ _ _ h3]
    · rw [set_false_eq m _ hc1 ha1]
      obtain ⟨o, ho⟩ := ensureObserver_some m (set m that true).that
      exact ⟨o.disconnect, by simp [ho, that_ok, that_error], rfl⟩
  | false =>
    have ha1 : allEntries (set m that true).that.options = false := by rw [hf.1]; exact ha
    have hdom := set_true_false_dom_raise m that hc ha
    refine ⟨?_, ?_, ?_⟩
    · intro n hn hcat
      have hav : alwaysVisibleNow m (set m (set m that true).that false).that
          = alwaysVisibleNow m that := by
        apply alwaysVisibleNow_congr
        · rw [hg.1, hf.1]
        · rw [hg.2.2.1, hf.2.2.1]
        · rw [hdom, staticKey_css, staticKey_jqHide, staticKey_css, staticKey_css]
      rw [hav] at hcat
      rw [hdom] at hn
      by_cases h1 : n.id ∈ [that.container] ++ that.content ++ alwaysVisibleReached m that
      · exact visibility_of_mem_css hn h1
      · obtain ⟨n1, hn1, e1, v1⟩ := mem_css hn
        obtain ⟨n2, hn2, e2, v2⟩ := mem_jqHide hn1
        obtain ⟨n3, hn3, e3, v3⟩ := mem_css hn2
        obtain ⟨n4, hn4, e4, v4⟩ := mem_css hn3
        simp only [List.mem_append, List.mem_singleton, not_or] at h1
        obtain ⟨⟨h2, h3⟩, h4⟩ := h1
        rw [v1 (by simp only [List.mem_append, List.mem_singleton, not_or]; exact ⟨⟨h2, h3⟩, h4⟩),
          v2, v3 (by rw [← e2, ← e1]; exact h4), v4 (by rw [← e3, ← e2, ← e1]; exact h3)]
        apply hv n4 hn4
        rw [← e4, ← e3, ← e2, ← e1]
        exact hcat
    · intro n0 hn0
      rw [hdom]
      by_cases h1 : n0.id ∈ [that.container] ++ that.content ++ alwaysVisibleReached m that
      · rw [visibilityAt_css_of_mem _ _ _ _ h1, visibilityAt_jqHide, length_visibilityAt_css,
          length_visibilityAt_css]
        symm
        apply visibilityAt_eq_replicate
        intro n hn hid
        apply hv n hn
        rw [hid]
        simp only [List.mem_append, List.mem_singleton] at h1
        rcases h1 with (h | h) | h
        · exact Or.inl h
        · exact Or.inr (Or.inl h)
        · exact Or.inr (Or.inr (reached_subset m that h))
      · rw [visibilityAt_css_of_not_mem _ _ _ _ h1, visibilityAt_jqHide]
        simp only [List.mem_append, List.mem_singleton, not_or] at h1
        obtain ⟨⟨_, h3⟩, h4⟩ := h1
        rw [visibilityAt_css_of_not_mem _ _ _ _ h4, visibilityAt_css_of_not_mem _ _ _ _ h3]
    · have hr1 := set_keeps_unregistered m that true hreg ha1
      have hr2 := set_keeps_unregistered m (set m that true).that false (fun _ => hr1)
        (by rw [hg.1]; exact ha1)
      have hsome : ∃ o, (set m (set m that true).that false).that.observer = some o := by
        rw [set_false_raise m _ hc1 ha1]
        exact ensureObserver_some m (set m that true).that
      obtain ⟨o, ho⟩ := hsome
      refine ⟨o, ho, ?_⟩
      unfold registrations at hr2
      rw [ho] at hr2
      exact hr2

theorem allEntries_search_visible (o : Options) (hav : o.alwaysVisible = ["search", "visible"]) :
    allEntries o = true := by
  simp [allEntries, hav, hasEntry, Selectors.get]

/-- C4: on a page with a non-empty content region, `set(that, true)` with
`alwaysVisible = ["search", "visible"]` returns, and afterwards the container
has the inline visibility `hidden`, every element that the `search` or the
`visible` selector locates under the container (on the page `set` is called
on, and likewise on the resulting page, a toggle created by this call apart)
has the inline visibility `visible`, the elements the `navToggle` selector
locates are shown, the watcher is registered on the container with
`childList` and `subtree` enabled, and every node of the page is still
there. -/
theorem set_true_search_visible (m : Engine) (that : Component) (hc : that.content ≠ [])
    (hav : that.options.alwaysVisible = ["search", "visible"]) :
    (∃ t, set m that true = .ok t) ∧
    (∀ n ∈ (set m that true).that.dom, n.id = that.container → n.visibility = "hidden") ∧
    (∀ n ∈ (set m that true).that.dom,
      (n.id ∈ located m that "search" ∨ n.id ∈ located m that "visible") →
        n.id ≠ that.container → n.visibility = "visible") ∧
    (∀ n ∈ (set m that true).that.dom,
      (n.id ∈ located m (set m that true).that "search"
        ∨ n.id ∈ located m (set m that true).that "visible") →
        n.id ≠ that.container → n.id ≠ freshId that → n.visibility = "visible") ∧
    (∀ n ∈ (set m that true).that.dom,
      n.id ∈ located m (set m that true).that "navToggle" → n.displayNone = false) ∧
    (∃ o, (set m that true).that.observer = some o ∧
      (that.container, { attributes := false, childList := true, subtree := true })
        ∈ o.registered) ∧
    (∀ n0 ∈ that.dom, ∃ n ∈ (set m that true).that.dom, n.id = n0.id) := by
  have ha := allEntries_search_visible that.options hav
  have hpre : ∀ n ∈ (set m that true).that.dom,
      (n.id ∈ located m that "search" ∨ n.id ∈ located m that "visible") →
        n.id ≠ that.container → n.visibility = "visible" := by
    intro n hn hloc hne
    have hmem : n.id ∈ alwaysVisibleNow m that := by
      simp only [alwaysVisibleNow, hav, List.mem_flatMap, List.mem_cons, List.mem_singleton]
      rcases hloc with h | h
      · exact ⟨"search", Or.inl rfl, h⟩
      · exact ⟨"visible", Or.inr (Or.inl rfl), h⟩
    rcases mem_set_true_dom hc ha hn with ⟨n0, _, h1, h2, _⟩ | ⟨_, h1, _⟩
    · rw [h2]
      simp [activatedVisibility, ← h1, hne, hmem]
    · have := alwaysVisibleNow_lt_freshId m that hmem
      omega
  refine ⟨⟨_, set_true_eq m that hc ha⟩, ?_, hpre, ?_, ?_, ?_,
    fun n0 hn0 => node_kept_by_set_true m that hc ha hn0⟩
  · intro n hn hid
    rcases mem_set_true_dom hc ha hn with ⟨n0, _, h1, h2, _⟩ | ⟨_, h1, _⟩
    · rw [h2]
      simp [activatedVisibility, ← h1, hid]
    · have := container_lt_freshId that
      omega
  · intro n hn hloc hne hfresh
    apply hpre n hn _ hne
    rcases hloc with h | h
    · rcases mem_located_set_true hc ha h with h1 | h1
      · exact Or.inl h1
      · exact absurd h1 hfresh
    · rcases mem_located_set_true hc ha h with h1 | h1
      · exact Or.inr h1
      · exact absurd h1 hfresh
  · intro n hn hloc
    rw [located_set_true m that hc ha] at hloc
    rw [set_true_dom m that hc ha] at hn
    exact displayNone_of_mem_jqShow hn hloc
  · obtain ⟨o, _, ho⟩ := set_true_observer m that hc ha
    exact ⟨_, ho, mem_observe o _ _⟩

/-! ### The injection of the toggle -/

theorem mem_jqShow_of_eq (ids : List Nat) {d : Dom} {n1 : Node} (h : n1 ∈ d)
    (hd : n1.displayNone = false) : n1 ∈ jqShow ids d := by
  simp only [jqShow, List.mem_map]
  refine ⟨n1, h, ?_⟩
  split
  · cases n1
    simp_all
  · rfl

/-- C8 (as amended): on a component whose content region is not empty (its
first element a node of the page) and whose always visible names all have an
entry in the selector table,
`set(that, true)` returns, and adds a node to the page exactly when
`options.injectNavToggle` is true, the `navToggle` selector locates nothing
and `that.nav` is not empty. When it does, the added node is a new element
built from the toggle markup with the toggle class added, with the toggle
label as text, one click handler, no child, and `aria-pressed` equal to the
current `model.showNav`; it becomes the first child of the first content
element, and the child list of every other element is what it was. When it
does not, no element is added and no child list changes. Either way the
`navToggle` selector locates at most one element more than before. -/
theorem set_true_injects_toggle (m : Engine) (that : Component) (first : Nat)
    (hfirst : that.content.head? = some first) (hstore : ∃ n ∈ that.dom, n.id = first)
    (ha : allEntries that.options = true) :
    (∃ t, set m that true = .ok t) ∧
    ((set m that true).that.dom.length = that.dom.length + 1 ↔
      (that.options.injectNavToggle = true ∧ located m that "navToggle" = []
        ∧ that.nav ≠ [])) ∧
    (¬ (that.options.injectNavToggle = true ∧ located m that "navToggle" = []
        ∧ that.nav ≠ []) →
      (set m that true).that.dom.map (fun n => (n.id, n.children))
        = that.dom.map (fun n => (n.id, n.children))) ∧
    ((that.options.injectNavToggle = true ∧ located m that "navToggle" = [] ∧ that.nav ≠ []) →
      (∃ toggle ∈ (set m that true).that.dom,
        toggle.id = freshId that ∧ toggle.isElement = true ∧
        toggle.attrs = addClass that.options.markupNavToggle that.options.stylesNavToggle ∧
        toggle.text = that.options.stringsNavToggle ∧ toggle.clickHandlers = 1 ∧
        toggle.children = [] ∧ toggle.ariaPressed = some that.model.showNav ∧
        toggle.visibility = "" ∧ toggle.displayNone = false) ∧
      (∀ n ∈ that.dom, n.id ≠ freshId that) ∧
      (∃ cs rest, childrenAt that.dom first = cs :: rest ∧
        childrenAt (set m that true).that.dom first = (freshId that :: cs) :: rest) ∧
      (∀ id, id ≠ first → id ≠ freshId that →
        childrenAt (set m that true).that.dom id = childrenAt that.dom id)) ∧
    (located m (set m that true).that "navToggle").length
      ≤ (located m that "navToggle").length + 1 := by
  have hc := content_ne_nil_of_head hfirst
  have hex := first_mem_activated m that first hstore
  have hfresh : ∀ n ∈ that.dom, n.id ≠ freshId that := fun n hn =>
    Nat.ne_of_lt (node_lt_freshId that hn)
  have hfirstne : (newToggle that).id ≠ first := by
    obtain ⟨n, hn, hid⟩ := hstore
    have := node_lt_freshId that hn
    simp only [newToggle]
    omega
  refine ⟨⟨_, set_true_eq m that hc ha⟩, ?_⟩
  rw [located_set_true m that hc ha, set_true_dom m that hc ha, ← injects_iff]
  cases hi : injects m that with
  | false =>
    rw [afterInjection_of_not m that hi]
    refine ⟨(by simp [length_activated]), fun _ => ?_, fun h => (by cases h), ?_⟩
    · rw [skeleton_jqShow, activated, skeleton_css, skeleton_css, skeleton_css]
    · rw [locatedIn_activated]; omega
  | true =>
    rw [afterInjection_of_injects m that hi first hfirst]
    refine ⟨(by simp [length_prepend _ _ _ _ hex, length_activated]), fun h => absurd rfl h,
      fun _ => ⟨?_, hfresh, ?_, ?_⟩, ?_⟩
    · obtain ⟨b, hb⟩ := toggle_mem_prepend that.container first (newToggle that) _ hex
      have hmem := mem_jqShow_of_eq
        (locatedIn m that.options.selectors that.container
          (prepend that.container first (newToggle that) (activated m that)) "navToggle") hb rfl
      exact ⟨_, hmem, rfl, rfl, rfl, rfl, rfl, rfl, rfl, rfl, rfl⟩
    · obtain ⟨cs, rest, h1, h2⟩ :=
        childrenAt_prepend_parent that.container first (newToggle that) _ hex hfirstne
      refine ⟨cs, rest, ?_, ?_⟩
      · rw [← childrenAt_activated m that first]; exact h1
      · rw [childrenAt_jqShow]; exact h2
    · intro id h1 h2
      rw [childrenAt_jqShow, childrenAt_prepend_other _ _ _ _ _ h1 h2, childrenAt_activated]
    · have := locatedIn_prepend_length m that.options.selectors that.container that.container
        first (newToggle that) (activated m that) "navToggle"
      rw [locatedIn_activated] at this
      exact this

/-! ### The navigation toggle -/

/-- C7 (as amended): `toggleNav(that, state)` returns; it sets the inline
visibility of the navigation elements to `visible` when `state` and
`model.simplify` are both true and to unset otherwise, sets `aria-pressed` of
the located toggles to `state`, and changes nothing else: every other field
of the component (the model flags and the watcher among them) is what it was,
and so is every node of the page apart from the visibility of the navigation
elements and the `aria-pressed` of the toggles. -/
theorem toggleNav_frame (m : Engine) (that : Component) (state : Bool) :
    toggleNav m that state =
      .ok { that with
        dom := that.dom.map (fun n =>
          { n with
            visibility :=
              if n.id ∈ that.nav then
                (if state = true ∧ that.model.simplify = true then "visible" else "")
              else n.visibility
            ariaPressed :=
              if n.id ∈ located m that "navToggle" then some state else n.ariaPressed }) } ∧
    (∀ n ∈ (toggleNav m that state).that.dom, n.id ∈ that.nav →
      n.visibility = if state = true ∧ that.model.simplify = true then "visible" else "") ∧
    (∀ n ∈ (toggleNav m that state).that.dom, n.id ∈ located m that "navToggle" →
      n.ariaPressed = some state) ∧
    (∀ id, id ∉ that.nav →
      visibilityAt (toggleNav m that state).that.dom id = visibilityAt that.dom id) ∧
    (toggleNav m that state).that.model = that.model ∧
    (toggleNav m that state).that.observer = that.observer := by
  have heq : toggleNav m that state =
      .ok { that with
        dom := that.dom.map (fun n =>
          { n with
            visibility :=
              if n.id ∈ that.nav then
                (if state = true ∧ that.model.simplify = true then "visible" else "")
              else n.visibility
            ariaPressed :=
              if n.id ∈ located m that "navToggle" then some state else n.ariaPressed }) } := by
    rw [toggleNav_eq]
    simp only [attrAriaPressed, css_eq_map, List.map_map, Bool.and_eq_true]
    congr 2
    apply List.map_congr_left
    intro n _
    simp only [Function.comp]
    by_cases h : n.id ∈ located m that "navToggle" <;> simp [h]
  refine ⟨heq, ?_, ?_, ?_, ?_, ?_⟩
  · intro n hn hid
    have := visibility_nav_toggleNav hn hid
    simpa [Bool.and_eq_true] using this
  · intro n hn hid
    rw [toggleNav_that] at hn
    exact ariaPressed_of_mem_attrAriaPressed hn hid
  · intro id hid
    rw [heq]
    simp only [visibilityAt, that_ok]
    induction that.dom with
    | nil => rfl
    | cons n ns ih =>
      simp only [List.map_cons, List.filter_cons]
      by_cases h : n.id = id
      · subst h
        simp [hid]
        simpa using ih
      · simp [h]
        simpa using ih
  · rw [heq]; rfl
  · rw [heq]; rfl

/-- C6 (as amended): on a component with `simplify` false and a non-empty
content region, when `showNav` is changed to true first and `simplify` is
changed to true afterwards, `set` leaves the navigation untouched: every
navigation element that is not the container, not a content element and not
located by an always visible name still has its inline visibility unset. The
navigation elements get the inline visibility `visible` in the other order,
when `showNav` is changed to true while `simplify` is already true. -/
theorem showNav_needs_simplify_first (m : Engine) (that : Component) (hc : that.content ≠ [])
    (hs : that.model.simplify = false) :
    (∀ n ∈ (showNavThenSimplify m that).dom,
      n.id ∈ that.nav → n.id ≠ that.container → n.id ∉ that.content →
        n.id ∉ alwaysVisibleNow m that → n.visibility = "") ∧
    (∀ n ∈ (simplifyThenShowNav m that).dom, n.id ∈ that.nav → n.visibility = "visible") := by
  have hf := toggleNav_fields m { that with model := { that.model with showNav := true } } true
  constructor
  · intro n hn hnav hcont hcontent hav
    have hav1 : alwaysVisibleNow m
        { (toggleNav m { that with model := { that.model with showNav := true } } true).that with
          model := { simplify := true, showNav := true } } = alwaysVisibleNow m that :=
      alwaysVisibleNow_congr m that _ hf.1 hf.2.2.1 hf.2.2.2.2.2.2
    refine set_true_leaves_nav m
      { (toggleNav m { that with model := { that.model with showNav := true } } true).that with
        model := { simplify := true, showNav := true } }
      (by simpa [hf.2.2.2.1] using hc) ?_ n ?_ ?_ ?_ ?_ ?_
    · intro x hx hxnav
      have h := @visibility_nav_toggleNav m
        { that with model := { that.model with showNav := true } } true x hx
        (by simpa [hf.2.2.2.2.1] using hxnav)
      simpa [hs] using h
    · simpa [showNavThenSimplify, hf.2.1] using hn
    · simpa [hf.2.2.2.2.1] using hnav
    · simpa [hf.2.2.1] using hcont
    · simpa [hf.2.2.2.1] using hcontent
    · rw [hav1]; exact hav
  · intro n hn hnav
    unfold simplifyThenShowNav at hn
    have hg := set_true_fields m { that with model := { that.model with simplify := true } }
    have h := visibility_nav_toggleNav hn (by simpa [hg.2.2.2.2.1] using hnav)
    simpa [hg.2.1] using h

/-! ### The watcher -/

theorem deliver_eq (m : Engine) (that : Component) (o : Observer)
    (batch : List MutationRecord) (ho : that.observer = some o) :
    deliver m that batch = observerCallback m o.selectors that batch := by
  unfold deliver
  rw [ho]

/-- The watcher that `set` constructs captures the selectors that `fluid.get`
finds for the always visible names of the options. -/
theorem set_builds_observer (m : Engine) (that : Component) (state : Bool)
    (h : that.observer = none) :
    ∃ o, (set m that state).that.observer = some o
      ∧ o.selectors = collectSelectors m (set m that state).that.options := by
  have he : ensureObserver m that =
      { that with
        observer := some
          { serial := that.observersBuilt, selectors := collectSelectors m that.options
            registered := [] }
        observersBuilt := that.observersBuilt + 1 } := by
    unfold ensureObserver
    rw [h]
  by_cases hc : that.content = []
  · rw [set_of_empty m that state hc, he]
    exact ⟨_, rfl, rfl⟩
  · cases ha : allEntries that.options <;> cases state
    · rw [set_false_raise m that hc ha, he]
      exact ⟨_, rfl, rfl⟩
    · rw [set_true_raise m that hc ha, he]
      exact ⟨_, rfl, rfl⟩
    · rw [set_false_eq m that hc ha, he]
      exact ⟨_, rfl, rfl⟩
    · rw [set_true_eq m that hc ha, he]
      exact ⟨_, rfl, by simp [Observer.observe]⟩

theorem deliver_normal (m : Engine) (that : Component) (o : Observer)
    (batch : List MutationRecord) (ho : that.observer = some o)
    (hsel : o.selectors = collectSelectors m that.options) :
    deliver m that batch =
      { that with
        fired := that.fired ++ matchingAdded m that.dom (compoundSelector m that.options) batch
        dom := css (matchingAdded m that.dom (compoundSelector m that.options) batch) "visible"
          that.dom } := by
  rw [deliver_eq m that o batch ho, observerCallback_eq, hsel, intercalate_collectSelectors]

theorem nodeMatches_iff (m : Engine) (dom : Dom) (selector : String) (node : Nat) :
    nodeMatches m dom selector node = true ↔
      ∃ n, dom.find? (fun n => n.id == node) = some n ∧ n.isElement = true
        ∧ m.elementMatches selector n.attrs = true := by
  unfold nodeMatches
  cases dom.find? (fun n => n.id == node) with
  | none => simp
  | some n => simp

/-- C10 (as amended): for every batch delivered to the watcher that `set`
built, `onAlwaysVisibleNodeAdded` is fired once for each listing, in the
`addedNodes` of a record, of a node that has a `matches` method (an element
of the page) and satisfies the compound always visible selector, record after
record and in list order, and for no other node; the page changes in the
inline visibility of these nodes only, so that removed nodes, attribute
targets, nodes without `matches` and elements that are only descendants of an
added node get no event and keep the visibility they had. -/
theorem deliver_fires_for_listed_nodes (m : Engine) (that : Component) (o : Observer)
    (batch : List MutationRecord) (ho : that.observer = some o)
    (hsel : o.selectors = collectSelectors m that.options) :
    deliver m that batch =
      { that with
        fired := that.fired ++ batch.flatMap (fun r =>
          r.addedNodes.filter (fun node =>
            nodeMatches m that.dom (compoundSelector m that.options) node))
        dom := css
          (batch.flatMap (fun r =>
            r.addedNodes.filter (fun node =>
              nodeMatches m that.dom (compoundSelector m that.options) node)))
          "visible" that.dom } ∧
    (∀ node, nodeMatches m that.dom (compoundSelector m that.options) node = true ↔
      ∃ n, that.dom.find? (fun n => n.id == node) = some n ∧ n.isElement = true
        ∧ m.elementMatches (compoundSelector m that.options) n.attrs = true) ∧
    (∀ id, (¬ ∃ r ∈ batch, id ∈ r.addedNodes ∧
        nodeMatches m that.dom (compoundSelector m that.options) id = true) →
      id ∉ (deliver m that batch).fired.drop that.fired.length ∧
      visibilityAt (deliver m that batch).dom id = visibilityAt that.dom id) := by
  have heq := deliver_normal m that o batch ho hsel
  refine ⟨heq, fun node => nodeMatches_iff m _ _ node, ?_⟩
  intro id hid
  have hnot : id ∉ matchingAdded m that.dom (compoundSelector m that.options) batch := by
    intro hmem
    simp only [matchingAdded, List.mem_flatMap, List.mem_filter] at hmem
    obtain ⟨r, hr, hadd, hmatch⟩ := hmem
    exact hid ⟨r, hr, hadd, hmatch⟩
  rw [heq]
  constructor
  · simpa using hnot
  · exact visibilityAt_css_of_not_mem _ _ _ _ hnot

/-- C5 (as amended): once `set` has built the watcher, for every batch
delivered to it, every node that is listed in the `addedNodes` of a record of
the batch, has a `matches` method and satisfies the compound always visible
selector gets `onAlwaysVisibleNodeAdded` fired for it during the delivery and
has the inline visibility `visible` afterwards, with no further call of
`set`; a node that no record of the batch lists in its `addedNodes` gets no
event and keeps its inline visibility. The compound selector is made of what
`fluid.get` finds in the selector table for the configured names, each read
as a dotted path, in configured order, what is missing or empty skipped,
joined with a comma. -/
theorem deliver_shows_listed_node (m : Engine) (that : Component) (o : Observer)
    (batch : List MutationRecord)
    (ho : that.observer = some o) (hsel : o.selectors = collectSelectors m that.options) :
    (∀ r ∈ batch, ∀ node ∈ r.addedNodes,
      nodeMatches m that.dom (compoundSelector m that.options) node = true →
        node ∈ (deliver m that batch).fired.drop that.fired.length ∧
        (∀ n ∈ (deliver m that batch).dom, n.id = node → n.visibility = "visible")) ∧
    (∀ id, (∀ r ∈ batch, id ∉ r.addedNodes) →
      id ∉ (deliver m that batch).fired.drop that.fired.length ∧
      visibilityAt (deliver m that batch).dom id = visibilityAt that.dom id) ∧
    ",".intercalate o.selectors
      = ",".intercalate (that.options.alwaysVisible.filterMap (fluidGet m that.options.selectors))
      := by
  have heq := deliver_normal m that o batch ho hsel
  refine ⟨?_, ?_, ?_⟩
  · intro r hr node hnode hm
    have hmem : node ∈ matchingAdded m that.dom (compoundSelector m that.options) batch := by
      simp only [matchingAdded, List.mem_flatMap, List.mem_filter]
      exact ⟨r, hr, hnode, hm⟩
    rw [heq]
    refine ⟨by simpa using hmem, ?_⟩
    intro n hn hid
    exact visibility_of_mem_css hn (hid ▸ hmem)
  · intro id hid
    have hnot : id ∉ matchingAdded m that.dom (compoundSelector m that.options) batch := by
      intro hmem
      simp only [matchingAdded, List.mem_flatMap, List.mem_filter] at hmem
      obtain ⟨r, hr, hadd, _⟩ := hmem
      exact hid r hr hadd
    rw [heq]
    constructor
    · simpa using hnot
    · exact visibilityAt_css_of_not_mem _ _ _ _ hnot
  · rw [hsel, collectSelectors_eq]

/-! ### Activation twice -/

theorem css_congr_mem (a b : List Nat) (v : String) (d : Dom) (h : ∀ x, x ∈ a ↔ x ∈ b) :
    css a v d = css b v d := by
  unfold css
  apply List.map_congr_left
  intro n _
  by_cases hn : n.id ∈ a
  · simp [hn, (h n.id).1 hn]
  · have hb : n.id ∉ b := fun hb => hn ((h n.id).2 hb)
    simp [hn, hb]

theorem set_true_raise_fixed (m : Engine) (u : Component) (hc : u.content ≠ [])
    (ha : allEntries u.options = false) (o : Observer) (ho : u.observer = some o)
    (hd : css (alwaysVisibleReached m u) "visible" (css u.content "visible" u.dom) = u.dom) :
    set m u true = .error u := by
  rw [set_true_raise m u hc ha, ensureObserver_of_some m u o ho, hd]

/-- C3 (as amended): `set(that, true)` called twice in a row ends as one call
ends and leaves the component in the state that one call leaves it in (the
page, the toggle, the watcher and its registration, the number of watchers
constructed), provided that, when the first call injects a toggle, that
toggle is afterwards located by the `navToggle` selector and what the always
visible names locate is the same after the first call as before it. -/
theorem set_true_twice (m : Engine) (that : Component)
    (hloc : that.content ≠ [] → allEntries that.options = true → injects m that = true →
      located m (set m that true).that "navToggle" ≠ [])
    (hav : that.content ≠ [] → allEntries that.options = true → injects m that = true →
      alwaysVisibleNow m (set m that true).that = alwaysVisibleNow m that) :
    set m (set m that true).that true = set m that true ∧
    (set m (set m that true).that true).that.observersBuilt
      = (set m that true).that.observersBuilt ∧
    located m (set m (set m that true).that true).that "navToggle"
      = located m (set m that true).that "navToggle" := by
  suffices h : set m (set m that true).that true = set m that true by
    exact ⟨h, by rw [h], by rw [h]⟩
  by_cases hc : that.content = []
  · rw [set_of_empty m that true hc, that_ok, set_of_empty m _ true (by simpa using hc)]
    obtain ⟨o, ho⟩ := ensureObserver_some m that
    rw [ensureObserver_of_some m _ o ho]
  · have hf := set_true_fields m that
    have hc1 : (set m that true).that.content ≠ [] := by rw [hf.2.2.2.1]; exact hc
    cases ha : allEntries that.options with
    | false =>
      have ha1 : allEntries (set m that true).that.options = false := by rw [hf.1]; exact ha
      have hd : (set m that true).that.dom
          = css (alwaysVisibleReached m that) "visible" (css that.content "visible" that.dom) := by
        rw [set_true_raise m that hc ha]
        rfl
      have hr : alwaysVisibleReached m (set m that true).that = alwaysVisibleReached m that :=
        alwaysVisibleReached_congr m that _ hf.1 hf.2.2.1 (by rw [hd, staticKey_css, staticKey_css])
      have hobs : ∃ o, (set m that true).that.observer = some o := by
        rw [set_true_raise m that hc ha]
        exact ensureObserver_some m that
      obtain ⟨o, ho⟩ := hobs
      have hfix := set_true_raise_fixed m (set m that true).that hc1 ha1 o ho (by
        rw [hr, hf.2.2.2.1, hd]
        simp only [css_css]
        apply css_congr_mem
        intro x
        simp only [List.mem_append]
        tauto)
      rw [hfix]
      rw [set_true_raise m that hc ha]
      rfl
    | true =>
      have ha1 : allEntries (set m that true).that.options = true := by rw [hf.1]; exact ha
      obtain ⟨o, _, ho1⟩ := set_true_observer m that hc ha
      have hd1 := set_true_dom m that hc ha
      have hl1 := located_set_true m that hc ha
      have hav1 : alwaysVisibleNow m (set m that true).that = alwaysVisibleNow m that := by
        cases hi : injects m that with
        | true => exact hav hc ha hi
        | false =>
          exact alwaysVisibleNow_congr m that _ hf.1 hf.2.2.1
            (staticKey_set_true_of_not m that hc ha hi)
      have hinj1 : injects m (set m that true).that = false := by
        cases hi : injects m that with
        | true =>
          have hne := hloc hc ha hi
          unfold injects
          cases hl : located m (set m that true).that "navToggle" with
          | nil => exact absurd hl hne
          | cons a l => simp
        | false =>
          have hloceq : located m (set m that true).that = located m that :=
            located_eq_of m that _ hf.1 hf.2.2.1 (staticKey_set_true_of_not m that hc ha hi)
          unfold injects at hi ⊢
          rw [hloceq, hf.1, hf.2.2.2.2.1]
          exact hi
      have hfix : set m (set m that true).that true = .ok (set m that true).that := by
        refine set_true_fixed m _ hc1 ha1 _ ho1 ?_ ?_ ?_
        · rw [hf.2.2.1]
          exact observe_observe o _ _
        · rw [afterInjection_of_not m _ hinj1]
          unfold activated
          rw [hav1, hf.2.2.1, hf.2.2.2.1, hd1, css_jqShow_comm, css_jqShow_comm,
            css_jqShow_comm, afterInjection_activation]
        · have : locatedIn m (set m that true).that.options.selectors
              (set m that true).that.container (set m that true).that.dom
              = located m (set m that true).that := rfl
          rw [this, hl1, hd1, jqShow_jqShow]
      rw [hfix, set_true_eq m that hc ha]
      rfl

/-! ### The theorems at concrete pages -/

theorem set_true_then_false_witness :
    (demoThat.content ≠ [] ∧
      (∀ n ∈ demoThat.dom,
        (n.id = demoThat.container ∨ n.id ∈ demoThat.content
          ∨ n.id ∈ alwaysVisibleNow cssDefault demoThat) → n.visibility = "") ∧
      (allEntries demoThat.options = false → registrations demoThat = []) ∧
      (∀ n ∈ (set cssDefault (set cssDefault demoThat true).that false).that.dom,
        (n.id = demoThat.container ∨ n.id ∈ demoThat.content
          ∨ n.id ∈ alwaysVisibleNow cssDefault
              (set cssDefault (set cssDefault demoThat true).that false).that) →
          n.visibility = "") ∧
      (∀ n0 ∈ demoThat.dom,
        visibilityAt (set cssDefault (set cssDefault demoThat true).that false).that.dom n0.id
          = visibilityAt demoThat.dom n0.id) ∧
      (∃ o, (set cssDefault (set cssDefault demoThat true).that false).that.observer = some o
        ∧ o.registered = [])) ∧
    (missingThat.content ≠ [] ∧ allEntries missingThat.options = false ∧
      (set cssDefault missingThat true).raised = true ∧
      (∀ n ∈ missingThat.dom,
        (n.id = missingThat.container ∨ n.id ∈ missingThat.content
          ∨ n.id ∈ alwaysVisibleNow cssDefault missingThat) → n.visibility = "") ∧
      (allEntries missingThat.options = false → registrations missingThat = []) ∧
      (∀ n ∈ (set cssDefault (set cssDefault missingThat true).that false).that.dom,
        (n.id = missingThat.container ∨ n.id ∈ missingThat.content
          ∨ n.id ∈ alwaysVisibleNow cssDefault
              (set cssDefault (set cssDefault missingThat true).that false).that) →
          n.visibility = "") ∧
      (∀ n0 ∈ missingThat.dom,
        visibilityAt (set cssDefault (set cssDefault missingThat true).that false).that.dom n0.id
          = visibilityAt missingThat.dom n0.id) ∧
      (∃ o, (set cssDefault (set cssDefault missingThat true).that false).that.observer = some o
        ∧ o.registered = [])) :=
  ⟨⟨by decide, by decide, by decide,
      set_true_then_false cssDefault demoThat (by decide) (by decide) (by decide)⟩,
    ⟨by decide, by decide, by decide, by decide, by decide,
      set_true_then_false cssDefault missingThat (by decide) (by decide) (by decide)⟩⟩

theorem set_true_search_visible_witness :
    demoThat.content ≠ [] ∧ demoThat.options.alwaysVisible = ["search", "visible"] ∧
    (∃ t, set cssDefault demoThat true = .ok t) ∧
    (∀ n ∈ (set cssDefault demoThat true).that.dom,
      n.id = demoThat.container → n.visibility = "hidden") ∧
    (∀ n ∈ (set cssDefault demoThat true).that.dom,
      (n.id ∈ located cssDefault demoThat "search"
        ∨ n.id ∈ located cssDefault demoThat "visible") →
        n.id ≠ demoThat.container → n.visibility = "visible") ∧
    (∀ n ∈ (set cssDefault demoThat true).that.dom,
      (n.id ∈ located cssDefault (set cssDefault demoThat true).that "search"
        ∨ n.id ∈ located cssDefault (set cssDefault demoThat true).that "visible") →
        n.id ≠ demoThat.container → n.id ≠ freshId demoThat → n.visibility = "visible") ∧
    (∀ n ∈ (set cssDefault demoThat true).that.dom,
      n.id ∈ located cssDefault (set cssDefault demoThat true).that "navToggle" →
        n.displayNone = false) ∧
    (∃ o, (set cssDefault demoThat true).that.observer = some o ∧
      (demoThat.container, { attributes := false, childList := true, subtree := true })
        ∈ o.registered) ∧
    (∀ n0 ∈ demoThat.dom, ∃ n ∈ (set cssDefault demoThat true).that.dom, n.id = n0.id) :=
  ⟨by decide, rfl, set_true_search_visible cssDefault demoThat (by decide) rfl⟩

theorem set_true_injects_toggle_witness :
    demoThat.content.head? = some 2 ∧ (∃ n ∈ demoThat.dom, n.id = 2) ∧
    allEntries demoThat.options = true ∧
    ((∃ t, set cssDefault demoThat true = .ok t) ∧
    ((set cssDefault demoThat true).that.dom.length = demoThat.dom.length + 1 ↔
      (demoThat.options.injectNavToggle = true ∧ located cssDefault demoThat "navToggle" = []
        ∧ demoThat.nav ≠ [])) ∧
    (¬ (demoThat.options.injectNavToggle = true ∧ located cssDefault demoThat "navToggle" = []
        ∧ demoThat.nav ≠ []) →
      (set cssDefault demoThat true).that.dom.map (fun n => (n.id, n.children))
        = demoThat.dom.map (fun n => (n.id, n.children))) ∧
    ((demoThat.options.injectNavToggle = true ∧ located cssDefault demoThat "navToggle" = []
        ∧ demoThat.nav ≠ []) →
      (∃ toggle ∈ (set cssDefault demoThat true).that.dom,
        toggle.id = freshId demoThat ∧ toggle.isElement = true ∧
        toggle.attrs
          = addClass demoThat.options.markupNavToggle demoThat.options.stylesNavToggle ∧
        toggle.text = demoThat.options.stringsNavToggle ∧ toggle.clickHandlers = 1 ∧
        toggle.children = [] ∧ toggle.ariaPressed = some demoThat.model.showNav ∧
        toggle.visibility = "" ∧ toggle.displayNone = false) ∧
      (∀ n ∈ demoThat.dom, n.id ≠ freshId demoThat) ∧
      (∃ cs rest, childrenAt demoThat.dom 2 = cs :: rest ∧
        childrenAt (set cssDefault demoThat true).that.dom 2 = (freshId demoThat :: cs) :: rest) ∧
      (∀ id, id ≠ 2 → id ≠ freshId demoThat →
        childrenAt (set cssDefault demoThat true).that.dom id = childrenAt demoThat.dom id)) ∧
    (located cssDefault (set cssDefault demoThat true).that "navToggle").length
      ≤ (located cssDefault demoThat "navToggle").length + 1) :=
  ⟨rfl, by decide, by decide,
    set_true_injects_toggle cssDefault demoThat 2 rfl (by decide) (by decide)⟩

theorem deliver_fires_for_listed_nodes_witness :
    wrappedThat.observer = some demoObserver ∧
    demoObserver.selectors = collectSelectors cssDefault wrappedThat.options ∧
    (deliver cssDefault wrappedThat stepwiseBatch =
      { wrappedThat with
        fired := wrappedThat.fired ++ stepwiseBatch.flatMap (fun r =>
          r.addedNodes.filter (fun node =>
            nodeMatches cssDefault wrappedThat.dom
              (compoundSelector cssDefault wrappedThat.options) node))
        dom := css
          (stepwiseBatch.flatMap (fun r =>
            r.addedNodes.filter (fun node =>
              nodeMatches cssDefault wrappedThat.dom
                (compoundSelector cssDefault wrappedThat.options) node)))
          "visible" wrappedThat.dom } ∧
    (∀ node, nodeMatches cssDefault wrappedThat.dom
        (compoundSelector cssDefault wrappedThat.options) node = true ↔
      ∃ n, wrappedThat.dom.find? (fun n => n.id == node) = some n ∧ n.isElement = true
        ∧ cssDefault.elementMatches (compoundSelector cssDefault wrappedThat.options) n.attrs
          = true) ∧
    (∀ id, (¬ ∃ r ∈ stepwiseBatch, id ∈ r.addedNodes ∧
        nodeMatches cssDefault wrappedThat.dom
          (compoundSelector cssDefault wrappedThat.options) id = true) →
      id ∉ (deliver cssDefault wrappedThat stepwiseBatch).fired.drop wrappedThat.fired.length ∧
      visibilityAt (deliver cssDefault wrappedThat stepwiseBatch).dom id
        = visibilityAt wrappedThat.dom id)) ∧
    (deliver cssDefault wrappedThat stepwiseBatch).fired = [8] :=
  ⟨by decide, by decide,
    deliver_fires_for_listed_nodes cssDefault wrappedThat demoObserver stepwiseBatch (by decide)
      (by decide), by decide⟩

theorem deliver_shows_listed_node_witness :
    wrappedThat.observer = some demoObserver ∧
    demoObserver.selectors = collectSelectors cssDefault wrappedThat.options ∧
    stepwiseRecord ∈ stepwiseBatch ∧ 8 ∈ stepwiseRecord.addedNodes ∧
    nodeMatches cssDefault wrappedThat.dom (compoundSelector cssDefault wrappedThat.options) 8
      = true ∧
    visibilityAt wrappedThat.dom 8 = [""] ∧
    visibilityAt (deliver cssDefault wrappedThat stepwiseBatch).dom 8 = ["visible"] ∧
    ((∀ r ∈ stepwiseBatch, ∀ node ∈ r.addedNodes,
      nodeMatches cssDefault wrappedThat.dom (compoundSelector cssDefault wrappedThat.options)
          node = true →
        node ∈ (deliver cssDefault wrappedThat stepwiseBatch).fired.drop
          wrappedThat.fired.length ∧
        (∀ n ∈ (deliver cssDefault wrappedThat stepwiseBatch).dom,
          n.id = node → n.visibility = "visible")) ∧
    (∀ id, (∀ r ∈ stepwiseBatch, id ∉ r.addedNodes) →
      id ∉ (deliver cssDefault wrappedThat stepwiseBatch).fired.drop wrappedThat.fired.length ∧
      visibilityAt (deliver cssDefault wrappedThat stepwiseBatch).dom id
        = visibilityAt wrappedThat.dom id) ∧
    ",".intercalate demoObserver.selectors
      = ",".intercalate (wrappedThat.options.alwaysVisible.filterMap
          (fluidGet cssDefault wrappedThat.options.selectors))) :=
  ⟨by decide, by decide, by decide, by decide, by decide, by decide, by decide,
    deliver_shows_listed_node cssDefault wrappedThat demoObserver stepwiseBatch
      (by decide) (by decide)⟩

theorem showNav_needs_simplify_first_witness :
    demoThat.content ≠ [] ∧ demoThat.model.simplify = false ∧
    (∀ n ∈ (showNavThenSimplify cssDefault demoThat).dom,
      n.id ∈ demoThat.nav → n.id ≠ demoThat.container → n.id ∉ demoThat.content →
        n.id ∉ alwaysVisibleNow cssDefault demoThat → n.visibility = "") ∧
    (∀ n ∈ (simplifyThenShowNav cssDefault demoThat).dom,
      n.id ∈ demoThat.nav → n.visibility = "visible") :=
  ⟨by decide, rfl, showNav_needs_simplify_first cssDefault demoThat (by decide) rfl⟩

theorem set_true_twice_witness :
    demoThat.content ≠ [] ∧ allEntries demoThat.options = true ∧
    injects cssDefault demoThat = true ∧
    (demoThat.content ≠ [] → allEntries demoThat.options = true →
      injects cssDefault demoThat = true →
      located cssDefault (set cssDefault demoThat true).that "navToggle" ≠ []) ∧
    (demoThat.content ≠ [] → allEntries demoThat.options = true →
      injects cssDefault demoThat = true →
      alwaysVisibleNow cssDefault (set cssDefault demoThat true).that
        = alwaysVisibleNow cssDefault demoThat) ∧
    set cssDefault (set cssDefault demoThat true).that true = set cssDefault demoThat true ∧
    (set cssDefault (set cssDefault demoThat true).that true).that.observersBuilt
      = (set cssDefault demoThat true).that.observersBuilt ∧
    located cssDefault (set cssDefault (set cssDefault demoThat true).that true).that "navToggle"
      = located cssDefault (set cssDefault demoThat true).that "navToggle" :=
  ⟨by decide, by decide, by decide, by decide, by decide,
    set_true_twice cssDefault demoThat (by decide) (by decide)⟩

/-! ### Where the specification and the code part -/

/-- C3, counterexample: with a toggle markup that the `navToggle` selector
does not locate, the second `set(that, true)` injects a second toggle; with
`navToggle` among the always visible names, the second call changes the inline
visibility of the toggle that the first call injected. -/
theorem set_true_twice_counterexample :
    (set cssDefault (set cssDefault plainToggleThat true).that true
        ≠ set cssDefault plainToggleThat true ∧
      childrenAt (set cssDefault plainToggleThat true).that.dom 2 = [[6, 3, 4]] ∧
      childrenAt (set cssDefault (set cssDefault plainToggleThat true).that true).that.dom 2
        = [[7, 6, 3, 4]]) ∧
    (set cssDefault (set cssDefault toggleVisibleThat true).that true
        ≠ set cssDefault toggleVisibleThat true ∧
      visibilityAt (set cssDefault toggleVisibleThat true).that.dom 6 = [""] ∧
      visibilityAt (set cssDefault (set cssDefault toggleVisibleThat true).that true).that.dom 6
        = ["visible"]) := by
  decide

/-- C5, counterexample. First, a search input (node 8) inserted under the
container inside a wrapper (node 7) is new to the page and satisfies the
compound selector, but the batch lists the wrapper only: no event is fired
and the input keeps its unset visibility. Second, with a selector filed under
the key `my.sel`, the name locates the elements of the page, but `fluid.get`
reads the name as the path `my`, `sel` and finds nothing: the compound
selector is empty, and a listed new element (node 7) that satisfies the
selector of the name gets no event. -/
theorem deliver_nested_counterexample :
    (wrappedThat.observer = some demoObserver ∧
      (wrappedThat.dom.filter (fun n => n.id != 7 && n.id != 8)).map
          (fun n => (n.id, n.visibility))
        = demoActive.dom.map (fun n => (n.id, n.visibility)) ∧
      (∃ r ∈ wrappedBatch, 7 ∈ r.addedNodes) ∧
      childrenAt wrappedThat.dom 7 = [[8]] ∧
      visibilityAt demoActive.dom 8 = [] ∧
      nodeMatches cssDefault wrappedThat.dom (compoundSelector cssDefault wrappedThat.options) 8
        = true ∧
      (deliver cssDefault wrappedThat wrappedBatch).fired = [] ∧
      visibilityAt (deliver cssDefault wrappedThat wrappedBatch).dom 8 = [""]) ∧
    (dottedThat.options.alwaysVisible = ["my.sel"] ∧
      dottedThat.options.selectors.get "my.sel" = some (some ".gpiic-simplify-visible") ∧
      locate cssDefault dottedThat "my.sel" = some [4] ∧
      (set cssDefault dottedThat true).raised = false ∧
      (set cssDefault dottedThat true).that.observer = dottedActive.observer ∧
      (dottedActive.dom.filter (fun n => n.id != 7)).map (fun n => (n.id, n.visibility))
        = (set cssDefault dottedThat true).that.dom.map (fun n => (n.id, n.visibility)) ∧
      fluidGet cssDefault dottedThat.options.selectors "my.sel" = none ∧
      compoundSelector cssDefault dottedActive.options = "" ∧
      (∃ r ∈ dottedBatch, 7 ∈ r.addedNodes) ∧
      nodeMatches cssDefault dottedActive.dom ".gpiic-simplify-visible" 7 = true ∧
      (deliver cssDefault dottedActive dottedBatch).fired = [] ∧
      visibilityAt (deliver cssDefault dottedActive dottedBatch).dom 7 = [""]) := by
  decide

/-- C6, counterexample: on the default page, with `simplify` false, changing
`showNav` to true and then `simplify` to true leaves the inline visibility of
the navigation element (node 1) unset, not `visible`. -/
theorem showNav_then_simplify_counterexample :
    demoThat.model.simplify = false ∧ demoThat.content ≠ [] ∧ demoThat.nav = [1] ∧
    (showNavThenSimplify cssDefault demoThat).model = { simplify := true, showNav := true } ∧
    visibilityAt (showNavThenSimplify cssDefault demoThat).dom 1 = [""] ∧
    visibilityAt (showNavThenSimplify cssDefault demoThat).dom 1 ≠ ["visible"] := by
  decide

/-- C7, counterexample: on a page whose navigation element (node 1) is also a
search landmark, hence an always visible element, `toggleNav(that, false)`
changes the inline visibility of that always visible element from `visible`
to unset. -/
theorem toggleNav_frame_counterexample :
    1 ∈ searchNavThat.nav ∧ 1 ∈ alwaysVisibleNow cssDefault searchNavThat ∧
    visibilityAt searchNavThat.dom 1 = ["visible"] ∧
    visibilityAt (toggleNav cssDefault searchNavThat false).that.dom 1 = [""] := by
  decide

/-- C8, counterexample: with an always visible name that has no entry in the
selector table, injection is configured, no toggle is located, the navigation
region is not empty and the content region is not empty, and yet
`set(that, true)` adds no toggle: it raises at the name without entry, before
the container is hidden, and leaves the page with the nodes and the child
lists it had, the watcher unregistered. -/
theorem set_true_injects_toggle_counterexample :
    missingThat.content.head? = some 2 ∧ (∃ n ∈ missingThat.dom, n.id = 2) ∧
    missingThat.options.alwaysVisible = ["search", "missing", "visible"] ∧
    missingThat.options.selectors.get "missing" = none ∧
    (missingThat.options.injectNavToggle = true ∧ located cssDefault missingThat "navToggle" = []
      ∧ missingThat.nav ≠ []) ∧
    (set cssDefault missingThat true).raised = true ∧
    (set cssDefault missingThat true).that.dom.length = missingThat.dom.length ∧
    (set cssDefault missingThat true).that.dom.length ≠ missingThat.dom.length + 1 ∧
    (set cssDefault missingThat true).that.dom.map (fun n => (n.id, n.children))
      = missingThat.dom.map (fun n => (n.id, n.children)) ∧
    located cssDefault (set cssDefault missingThat true).that "navToggle" = [] ∧
    visibilityAt (set cssDefault missingThat true).that.dom 0 = [""] ∧
    registrations (set cssDefault missingThat true).that = [] := by
  decide

/-- C10, counterexample: a node (8) that two records of a batch list in their
`addedNodes`, and that has a `matches` method and satisfies the compound
selector, gets the event twice, not exactly once. -/
theorem deliver_fires_for_listed_nodes_counterexample :
    wrappedThat.observer = some demoObserver ∧
    demoObserver.selectors = collectSelectors cssDefault wrappedThat.options ∧
    nodeMatches cssDefault wrappedThat.dom (compoundSelector cssDefault wrappedThat.options) 8
      = true ∧
    (twiceBatch.filter (fun r => decide (8 ∈ r.addedNodes))).length = 2 ∧
    (deliver cssDefault wrappedThat twiceBatch).fired = [8, 8] ∧
    ((deliver cssDefault wrappedThat twiceBatch).fired.drop wrappedThat.fired.length).count 8
      = 2 := by
  decide

end simplify

end Gpii
